import Mathlib

/-!
Verification of the FL Bridge SysEx protocol layer (fl-bridge).

We shallowly embed the protocol code of `protocol/sysex.py`,
`protocol/commands.py` and `device_FLBridge.py`:

* Python `bytes` / `str` values are modelled as `List Nat` (byte values,
  respectively Unicode code points).
* Python JSON values (the payloads) are modelled by the inductive `JValue`;
  `json.dumps` / `json.loads` (with their default options, as the code calls
  them) are modelled by `jdumps` / `jloads`; `base64.b64encode` /
  `base64.b64decode` by `b64encode` / `b64decode`; `str.encode("utf-8")` /
  `bytes.decode("utf-8")` by `utf8Encode` / `utf8Decode`.
  The model of `json.loads` does not represent float literals (a payload
  containing `1.5` fails to parse in the model); no theorem below depends on
  float payloads.
* Fallible operations return `Option`; functions that Python documents as
  never raising are total.
-/

/-- Code points of a Lean string literal, used to embed Python string
literals. -/
def strLit (s : String) : List Nat := s.toList.map (fun c => c.toNat)

/-- ASCII decimal digit? -/
def isDigit (c : Nat) : Bool := 48 ≤ c && c ≤ 57

/-- JSON whitespace, as in Python's `json` module. -/
def isWs (c : Nat) : Bool := c = 32 || c = 9 || c = 10 || c = 13

/-- Drop leading JSON whitespace. -/
def skipWs : List Nat → List Nat
  | [] => []
  | c :: rest => if isWs c then skipWs rest else c :: rest

/-- Lowercase hexadecimal digit for a value `< 16` (as produced by
Python's `"\\u%04x" % c`). -/
def hexDig (n : Nat) : Nat := if n < 10 then 48 + n else 87 + n

/-- Four lowercase hex digits of a value `< 0x10000`. -/
def hex4 (n : Nat) : List Nat :=
  [hexDig (n / 4096 % 16), hexDig (n / 256 % 16), hexDig (n / 16 % 16), hexDig (n % 16)]

/-- Value of one hex digit (Python's JSON scanner accepts both cases). -/
def hexVal (c : Nat) : Option Nat :=
  if 48 ≤ c ∧ c ≤ 57 then some (c - 48)
  else if 97 ≤ c ∧ c ≤ 102 then some (c - 87)
  else if 65 ≤ c ∧ c ≤ 70 then some (c - 55)
  else none

/-- Decimal digits of a natural number (fuelled so that it computes by
structural recursion; `natRepr` supplies enough fuel). -/
def natReprAux : Nat → Nat → List Nat
  | 0, _ => []
  | fuel + 1, n => if n < 10 then [48 + n] else natReprAux fuel (n / 10) ++ [48 + n % 10]

/-- Decimal representation of a natural number, as ASCII codes. -/
def natRepr (n : Nat) : List Nat := natReprAux (n + 1) n

/-- Python `repr` of an integer, as ASCII codes (used by `json.dumps`). -/
def intRepr : Int → List Nat
  | .ofNat n => natRepr n
  | .negSucc m => 45 :: natRepr (m + 1)

/-- Split off the maximal leading run of decimal digits. -/
def takeDigits : List Nat → List Nat × List Nat
  | [] => ([], [])
  | c :: rest =>
    if isDigit c then
      let p := takeDigits rest
      (c :: p.1, p.2)
    else ([], c :: rest)

/-- Numeric value of a digit string. -/
def digitsVal (ds : List Nat) : Nat := ds.foldl (fun acc c => acc * 10 + (c - 48)) 0

/-! ## Base64 (`base64.b64encode` / `base64.b64decode`, standard alphabet) -/

/-- Standard base64 alphabet: 6-bit value to ASCII code. -/
def b64char (n : Nat) : Nat :=
  if n < 26 then 65 + n
  else if n < 52 then 97 + (n - 26)
  else if n < 62 then 48 + (n - 52)
  else if n = 62 then 43
  else 47

/-- Standard base64 alphabet: ASCII code to 6-bit value. -/
def b64val (c : Nat) : Option Nat :=
  if 65 ≤ c ∧ c ≤ 90 then some (c - 65)
  else if 97 ≤ c ∧ c ≤ 122 then some (c - 97 + 26)
  else if 48 ≤ c ∧ c ≤ 57 then some (c - 48 + 52)
  else if c = 43 then some 62
  else if c = 47 then some 63
  else none

/-- `base64.b64encode`: bytes to ASCII codes of the base64 text, with `=`
padding (61 is the code of `=`). -/
def b64encode : List Nat → List Nat
  | [] => []
  | [a] => [b64char (a / 4), b64char (a % 4 * 16), 61, 61]
  | [a, b] => [b64char (a / 4), b64char (a % 4 * 16 + b / 16), b64char (b % 16 * 4), 61]
  | a :: b :: c :: rest =>
    b64char (a / 4) :: b64char (a % 4 * 16 + b / 16) :: b64char (b % 16 * 4 + c / 64) ::
      b64char (c % 64) :: b64encode rest

/-- Decode 4-character base64 groups (input already filtered to alphabet
characters and `=`). -/
def b64decodeGroups : List Nat → Option (List Nat)
  | [] => some []
  | c1 :: c2 :: c3 :: c4 :: rest =>
    match b64val c1, b64val c2 with
    | some v1, some v2 =>
      if c3 = 61 ∧ c4 = 61 ∧ rest = [] then some [v1 * 4 + v2 / 16]
      else
        match b64val c3 with
        | some v3 =>
          if c4 = 61 ∧ rest = [] then some [v1 * 4 + v2 / 16, v2 % 16 * 16 + v3 / 4]
          else
            match b64val c4 with
            | some v4 =>
              (b64decodeGroups rest).map
                (fun tl => (v1 * 4 + v2 / 16) :: (v2 % 16 * 16 + v3 / 4) :: (v3 % 4 * 64 + v4) :: tl)
            | none => none
        | none => none
    | _, _ => none
  | _ => none

/-- `base64.b64decode` with `validate=False` (the default used by the code):
characters outside the alphabet are discarded, then the length must be a
multiple of 4 and padding must be well placed. -/
def b64decode (s : List Nat) : Option (List Nat) :=
  let t := s.filter (fun c => (b64val c).isSome || c = 61)
  if t.length % 4 = 0 then b64decodeGroups t else none

/-! ## UTF-8 (`str.encode("utf-8")` / `bytes.decode`) -/

/-- UTF-8 encoding of one code point (< 0x110000). -/
def utf8EncodeChar (c : Nat) : List Nat :=
  if c < 128 then [c]
  else if c < 2048 then [192 + c / 64, 128 + c % 64]
  else if c < 65536 then [224 + c / 4096, 128 + c / 64 % 64, 128 + c % 64]
  else [240 + c / 262144, 128 + c / 4096 % 64, 128 + c / 64 % 64, 128 + c % 64]

/-- `str.encode("utf-8")`: code points to bytes. -/
def utf8Encode (s : List Nat) : List Nat := (s.map utf8EncodeChar).flatten

/-- Is `b` a UTF-8 continuation byte? -/
def isCont (b : Nat) : Bool := 128 ≤ b && b < 192

/-- Decode one multi-byte UTF-8 sequence: leading byte `b` (≥ 0x80) plus
continuation bytes taken from `rest`.  Returns the code point and the
remaining bytes.  Rejects overlong forms, surrogates and out-of-range
values, as CPython's strict decoder does. -/
def utf8Step (b : Nat) (rest : List Nat) : Option (Nat × List Nat) :=
  if b < 194 then none
  else if b < 224 then
    match rest with
    | b2 :: r => if isCont b2 then some ((b - 192) * 64 + (b2 - 128), r) else none
    | [] => none
  else if b < 240 then
    match rest with
    | b2 :: b3 :: r =>
      if isCont b2 && isCont b3 &&
          !(b = 224 && b2 < 160) && !(b = 237 && 160 ≤ b2) then
        some ((b - 224) * 4096 + (b2 - 128) * 64 + (b3 - 128), r)
      else none
    | _ => none
  else if b < 245 then
    match rest with
    | b2 :: b3 :: b4 :: r =>
      if isCont b2 && isCont b3 && isCont b4 &&
          !(b = 240 && b2 < 144) && !(b = 244 && 144 ≤ b2) then
        some ((b - 240) * 262144 + (b2 - 128) * 4096 + (b3 - 128) * 64 + (b4 - 128), r)
      else none
    | _ => none
  else none

/-- Fuelled strict UTF-8 decoding; each step consumes at least one byte,
so fuel `length + 1` (supplied by `utf8Decode`) always suffices. -/
def utf8DecodeF : Nat → List Nat → Option (List Nat)
  | 0, _ => none
  | fuel + 1, s =>
    match s with
    | [] => some []
    | b :: rest =>
      if b < 128 then (utf8DecodeF fuel rest).map (fun tl => b :: tl)
      else
        match utf8Step b rest with
        | some p => (utf8DecodeF fuel p.2).map (fun tl => p.1 :: tl)
        | none => none

/-- `bytes.decode("utf-8")`: strict UTF-8 decoding. -/
def utf8Decode (s : List Nat) : Option (List Nat) := utf8DecodeF (s.length + 1) s

/-- `bytes.decode("ascii")`: succeeds exactly when every byte is < 128. -/
def asciiDecode (s : List Nat) : Option (List Nat) :=
  if s.all (fun b => b < 128) then some s else none

/-! ## JSON values

`JValue` models the Python values that flow through the protocol: JSON
nulls, booleans, integers, strings (as lists of Unicode code points),
arrays and objects.  Python dicts are ordered, so objects are association
lists in insertion order. -/

inductive JValue where
  | jnull
  | jbool (b : Bool)
  | jint (n : Int)
  | jstr (s : List Nat)
  | jarr (xs : List JValue)
  | jobj (kvs : List (List Nat × JValue))

mutual

def jbeq : JValue → JValue → Bool
  | .jnull, .jnull => true
  | .jbool a, .jbool b => a == b
  | .jint a, .jint b => a == b
  | .jstr a, .jstr b => a == b
  | .jarr a, .jarr b => jbeqList a b
  | .jobj a, .jobj b => jbeqKvs a b
  | _, _ => false

def jbeqList : List JValue → List JValue → Bool
  | [], [] => true
  | x :: xs, y :: ys => jbeq x y && jbeqList xs ys
  | _, _ => false

def jbeqKvs : List (List Nat × JValue) → List (List Nat × JValue) → Bool
  | [], [] => true
  | (k, v) :: xs, (l, w) :: ys => k == l && jbeq v w && jbeqKvs xs ys
  | _, _ => false

end

mutual

/-- `jbeq` decides equality (proved as a `def` so the decidability
instance below can live with the definitions). -/
def jbeq_iff : ∀ a b : JValue, jbeq a b = true ↔ a = b
  | .jnull, b => by cases b <;> simp [jbeq]
  | .jbool x, b => by cases b <;> simp [jbeq]
  | .jint x, b => by cases b <;> simp [jbeq]
  | .jstr x, b => by cases b <;> simp [jbeq]
  | .jarr xs, b => by
    cases b <;> simp [jbeq]
    case jarr ys => exact (jbeqList_iff xs ys).trans (by simp)
  | .jobj kvs, b => by
    cases b <;> simp [jbeq]
    case jobj ys => exact (jbeqKvs_iff kvs ys).trans (by simp)

def jbeqList_iff : ∀ a b : List JValue, jbeqList a b = true ↔ a = b
  | [], b => by cases b <;> simp [jbeqList]
  | x :: xs, b => by
    cases b with
    | nil => simp [jbeqList]
    | cons y ys =>
      simp only [jbeqList, Bool.and_eq_true, List.cons.injEq]
      rw [jbeq_iff, jbeqList_iff]

def jbeqKvs_iff : ∀ a b : List (List Nat × JValue), jbeqKvs a b = true ↔ a = b
  | [], b => by cases b <;> simp [jbeqKvs]
  | (k, v) :: xs, b => by
    cases b with
    | nil => simp [jbeqKvs]
    | cons p ys =>
      obtain ⟨l, w⟩ := p
      simp only [jbeqKvs, Bool.and_eq_true, List.cons.injEq, beq_iff_eq, Prod.mk.injEq]
      rw [jbeq_iff, jbeqKvs_iff]

end

instance : DecidableEq JValue := fun a b =>
  decidable_of_iff (jbeq a b = true) (jbeq_iff a b)

/-! ## `json.dumps` (default options: `ensure_ascii=True`,
separators `", "` and `": "`) -/

/-- Escape one character of a JSON string, as CPython's
`json.encoder.py_encode_basestring_ascii` does: `"` and `\` get a
backslash escape, the named control characters get their short escapes,
every other character outside `0x20..0x7E` becomes `\uXXXX` (with a
surrogate pair above `0xFFFF`), and the rest is emitted literally. -/
def escChar (c : Nat) : List Nat :=
  if c = 34 then [92, 34]
  else if c = 92 then [92, 92]
  else if c = 8 then [92, 98]
  else if c = 9 then [92, 116]
  else if c = 10 then [92, 110]
  else if c = 12 then [92, 102]
  else if c = 13 then [92, 114]
  else if c < 32 then 92 :: 117 :: hex4 c
  else if c < 127 then [c]
  else if c < 65536 then 92 :: 117 :: hex4 c
  else
    92 :: 117 :: hex4 (55296 + (c - 65536) / 1024) ++ (92 :: 117 :: hex4 (56320 + (c - 65536) % 1024))

/-- Escaped body of a JSON string. -/
def escStr (s : List Nat) : List Nat := (s.map escChar).flatten

/-- A quoted JSON string literal. -/
def encStr (s : List Nat) : List Nat := 34 :: escStr s ++ [34]

mutual

def jdumps : JValue → List Nat
  | .jnull => strLit "null"
  | .jbool true => strLit "true"
  | .jbool false => strLit "false"
  | .jint n => intRepr n
  | .jstr s => encStr s
  | .jarr xs => 91 :: jdumpsList xs ++ [93]
  | .jobj kvs => 123 :: jdumpsKvs kvs ++ [125]

def jdumpsList : List JValue → List Nat
  | [] => []
  | [x] => jdumps x
  | x :: y :: rest => jdumps x ++ (44 :: 32 :: jdumpsList (y :: rest))

def jdumpsKvs : List (List Nat × JValue) → List Nat
  | [] => []
  | [(k, v)] => encStr k ++ (58 :: 32 :: jdumps v)
  | (k, v) :: p :: rest => encStr k ++ (58 :: 32 :: jdumps v) ++ (44 :: 32 :: jdumpsKvs (p :: rest))

end

/-- A valid (non-surrogate, in-range) Unicode scalar value: the code
points a well-formed Python text string is made of. -/
def validCp (c : Nat) : Bool := c < 55296 || (57344 ≤ c && c < 1114112)

/-- All code points of the string are Unicode scalar values. -/
def validStr (s : List Nat) : Bool := s.all validCp

mutual

/-- Well-formed model value: strings consist of Unicode scalar values and
object keys are distinct (as they are in a Python dict). -/
def wfJson : JValue → Bool
  | .jnull => true
  | .jbool _ => true
  | .jint _ => true
  | .jstr s => validStr s
  | .jarr xs => wfList xs
  | .jobj kvs => wfKvs kvs

def wfList : List JValue → Bool
  | [] => true
  | x :: rest => wfJson x && wfList rest

def wfKvs : List (List Nat × JValue) → Bool
  | [] => true
  | (k, v) :: rest => validStr k && wfJson v && !(rest.map Prod.fst).contains k && wfKvs rest

end

/-! ## `json.loads`

Recursive-descent parser mirroring CPython's `json.scanner` /
`json.decoder` (pure-Python path), over code-point lists.  Values are
parsed with a fuel argument so that the definition is structural; the
top-level `jloads` supplies fuel `length + 1`, which `jloads_jdumps`
below shows is enough for every serialized value. -/

/-- One step of `json.decoder.py_scanstring` with `strict=True`: from the
input after the opening quote, consume either the closing quote
(returning `(none, rest)`) or one string character, possibly escaped
(returning `(some c, rest)`).  Raw control characters and bad escapes are
errors.  A `\uXXXX` escape that is a high surrogate followed by a
`\uXXXX` low surrogate yields the combined code point. -/
def parseStrStep (s : List Nat) : Option (Option Nat × List Nat) :=
  match s with
  | [] => none
  | c :: rest =>
    if c = 34 then some (none, rest)
    else if c = 92 then
      match rest with
      | [] => none
      | e :: rest2 =>
        if e = 34 then some (some 34, rest2)
        else if e = 92 then some (some 92, rest2)
        else if e = 47 then some (some 47, rest2)
        else if e = 98 then some (some 8, rest2)
        else if e = 102 then some (some 12, rest2)
        else if e = 110 then some (some 10, rest2)
        else if e = 114 then some (some 13, rest2)
        else if e = 116 then some (some 9, rest2)
        else if e = 117 then
          match rest2 with
          | h1 :: h2 :: h3 :: h4 :: rest3 =>
            match hexVal h1, hexVal h2, hexVal h3, hexVal h4 with
            | some a, some b, some c2, some d =>
              let h := a * 4096 + b * 256 + c2 * 16 + d
              if 55296 ≤ h ∧ h ≤ 56319 then
                match rest3 with
                | b1 :: b2 :: rest4 =>
                  if b1 = 92 ∧ b2 = 117 then
                    match rest4 with
                    | k1 :: k2 :: k3 :: k4 :: rest5 =>
                      match hexVal k1, hexVal k2, hexVal k3, hexVal k4 with
                      | some e1, some e2, some e3, some e4 =>
                        let l := e1 * 4096 + e2 * 256 + e3 * 16 + e4
                        if 56320 ≤ l ∧ l ≤ 57343 then
                          some (some (65536 + (h - 55296) * 1024 + (l - 56320)), rest5)
                        else some (some h, rest3)
                      | _, _, _, _ => none
                    | _ => none
                  else some (some h, rest3)
                | _ => some (some h, rest3)
              else some (some h, rest3)
            | _, _, _, _ => none
          | _ => none
        else none
    else if c < 32 then none
    else some (some c, rest)

/-- Fuelled parser for the body of a JSON string (the opening quote
already consumed), returning the string and the remaining input.  Each
step consumes at least one input character, so fuel `length + 1`
(supplied by `parseStr`) always suffices. -/
def parseStrF : Nat → List Nat → Option (List Nat × List Nat)
  | 0, _ => none
  | fuel + 1, s =>
    match parseStrStep s with
    | none => none
    | some (none, rest) => some ([], rest)
    | some (some c, rest) => (parseStrF fuel rest).map (fun p => (c :: p.1, p.2))

/-- Parse the body of a JSON string, fuel supplied from the input
length. -/
def parseStr (s : List Nat) : Option (List Nat × List Nat) := parseStrF (s.length + 1) s

/-- Does the input start with the exponent body `[-+]?\d`? -/
def isExpStart : List Nat → Bool
  | [] => false
  | c :: rest =>
    if c = 43 ∨ c = 45 then
      match rest with
      | d :: _ => isDigit d
      | [] => false
    else isDigit c

/-- Would the input continue as the fractional/exponent part of a JSON
number?  (Mirrors the optional groups of `json.scanner.NUMBER_RE`; such
numbers are floats, which the model does not represent.) -/
def isFloatCont : List Nat → Bool
  | [] => false
  | c :: rest =>
    if c = 46 then
      match rest with
      | d :: _ => isDigit d
      | [] => false
    else if c = 101 ∨ c = 69 then isExpStart rest
    else false

/-- Parse an unsigned JSON integer (regex `0|[1-9]\d*`, no float
continuation). -/
def parseUNum (s : List Nat) : Option (Nat × List Nat) :=
  let p := takeDigits s
  if p.1 = [] then none
  else if p.1.head? = some 48 ∧ p.1.length ≠ 1 then none
  else if isFloatCont p.2 then none
  else some (digitsVal p.1, p.2)

/-- Parse a JSON integer with optional leading minus sign. -/
def parseNum (s : List Nat) : Option (Int × List Nat) :=
  match s with
  | c :: rest =>
    if c = 45 then (parseUNum rest).map (fun p => (-(p.1 : Int), p.2))
    else (parseUNum (c :: rest)).map (fun p => ((p.1 : Int), p.2))
  | [] => (parseUNum []).map (fun p => ((p.1 : Int), p.2))

/-- CPython dict item assignment `d[k] = v`: replaces the value in place
if the key exists, otherwise appends the pair. -/
def pyDictInsert (kvs : List (List Nat × JValue)) (k : List Nat) (v : JValue) :
    List (List Nat × JValue) :=
  if (kvs.map Prod.fst).contains k then
    kvs.map (fun p => if p.1 = k then (k, v) else p)
  else kvs ++ [(k, v)]

/-- Build a dict from parsed key/value pairs in order, as
`json.decoder.JSONObject` does (`pairs[key] = value` per pair). -/
def mkPyDict (ps : List (List Nat × JValue)) : List (List Nat × JValue) :=
  ps.foldl (fun acc p => pyDictInsert acc p.1 p.2) []

mutual

def parseValue : Nat → List Nat → Option (JValue × List Nat)
  | 0, _ => none
  | fuel + 1, s =>
    match s with
    | [] => none
    | c :: rest =>
      if c = 34 then (parseStr rest).map (fun p => (.jstr p.1, p.2))
      else if c = 123 then
        let s1 := skipWs rest
        if s1.head? = some 125 then some (.jobj [], s1.tail)
        else (parseMembers fuel s1).map (fun p => (.jobj (mkPyDict p.1), p.2))
      else if c = 91 then
        let s1 := skipWs rest
        if s1.head? = some 93 then some (.jarr [], s1.tail)
        else (parseElems fuel s1).map (fun p => (.jarr p.1, p.2))
      else if c = 116 then
        if rest.take 3 = [114, 117, 101] then some (.jbool true, rest.drop 3) else none
      else if c = 102 then
        if rest.take 4 = [97, 108, 115, 101] then some (.jbool false, rest.drop 4) else none
      else if c = 110 then
        if rest.take 3 = [117, 108, 108] then some (.jnull, rest.drop 3) else none
      else if c = 45 || isDigit c then (parseNum (c :: rest)).map (fun p => (.jint p.1, p.2))
      else none

def parseElems : Nat → List Nat → Option (List JValue × List Nat)
  | 0, _ => none
  | fuel + 1, s =>
    match parseValue fuel s with
    | none => none
    | some (v, r) =>
      let r1 := skipWs r
      if r1.head? = some 44 then
        (parseElems fuel (skipWs r1.tail)).map (fun p => (v :: p.1, p.2))
      else if r1.head? = some 93 then some ([v], r1.tail)
      else none

def parseMembers : Nat → List Nat → Option (List (List Nat × JValue) × List Nat)
  | 0, _ => none
  | fuel + 1, s =>
    if s.head? = some 34 then
      match parseStr s.tail with
      | none => none
      | some (key, r1) =>
        let r2 := skipWs r1
        if r2.head? = some 58 then
          match parseValue fuel (skipWs r2.tail) with
          | none => none
          | some (v, r3) =>
            let r4 := skipWs r3
            if r4.head? = some 44 then
              (parseMembers fuel (skipWs r4.tail)).map (fun p => ((key, v) :: p.1, p.2))
            else if r4.head? = some 125 then some ([(key, v)], r4.tail)
            else none
        else none
    else none

end

/-- `json.loads`: skip leading whitespace, parse one value, require only
whitespace after it. -/
def jloads (s : List Nat) : Option JValue :=
  let s1 := skipWs s
  match parseValue (s1.length + 1) s1 with
  | some (v, rest) => if skipWs rest = [] then some v else none
  | none => none

/-! ## `protocol/sysex.py` -/

def SYSEX_START : Nat := 240
def SYSEX_END : Nat := 247
def MANUFACTURER_ID : Nat := 125
def ORIGIN_CLIENT : Nat := 0
def ORIGIN_SERVER : Nat := 1
def MSG_TYPE_COMMAND : Nat := 1
def MSG_TYPE_RESPONSE : Nat := 2
def STATUS_OK : Nat := 0
def STATUS_ERROR : Nat := 1
def MAX_PAYLOAD_BYTES : Nat := 1800

/-- Hex digits of a natural number (fuelled like `natReprAux`). -/
def hexReprAux : Nat → Nat → List Nat
  | 0, _ => []
  | fuel + 1, n => if n < 16 then [hexDig n] else hexReprAux fuel (n / 16) ++ [hexDig (n % 16)]

/-- Python `hex()` of a byte value, e.g. `0xf3`. -/
def pyHex (n : Nat) : List Nat := 48 :: 120 :: hexReprAux (n + 1) n

/-- Result of `parse_sysex`, which in Python is a dict holding
`client_id` and either `command` (success) or `error` (rejection). -/
inductive ParseResult where
  | ok (client_id : Nat) (command : JValue)
  | err (client_id : Nat) (msg : List Nat)
deriving DecidableEq

/-- `parse_sysex(data)`.  The Python function is one big `try`, but every
step of the body is total here, so the final catch-all branch is
unreachable and not modelled.  The exception texts interpolated into the
two decode-failure messages (`f"Base64 decode failed: {e}"`,
`f"JSON parse failed: {e}"`) are abstracted to the fixed prefix Python
uses; no theorem depends on those texts. -/
def parse_sysex (data : List Nat) : ParseResult :=
  if data.length < 8 then .err 0 (strLit "Message too short")
  else if data.getD 0 0 ≠ SYSEX_START then .err 0 (strLit "Missing SysEx start byte (0xF0)")
  else if data.getLast? ≠ some SYSEX_END then .err 0 (strLit "Missing SysEx end byte (0xF7)")
  else if data.getD 1 0 ≠ MANUFACTURER_ID then
    .err 0 (strLit "Wrong manufacturer ID: " ++ pyHex (data.getD 1 0))
  else
    let origin := data.getD 2 0
    let client_id := data.getD 3 0
    let continuation := data.getD 4 0
    let msg_type := data.getD 5 0
    if origin ≠ ORIGIN_CLIENT then
      .err client_id (strLit "Expected origin=client (0x00), got " ++ pyHex origin)
    else if msg_type ≠ MSG_TYPE_COMMAND then
      .err client_id (strLit "Expected msg_type=command (0x01), got " ++ pyHex msg_type)
    else if continuation ≠ 0 then
      .err client_id (strLit "Continuation messages not yet supported")
    else
      let payload := (data.drop 7).dropLast
      if payload.length = 0 then .err client_id (strLit "Empty payload")
      else
        match asciiDecode payload with
        | none => .err client_id (strLit "Base64 decode failed: ")
        | some payload_str =>
          match b64decode payload_str with
          | none => .err client_id (strLit "Base64 decode failed: ")
          | some json_bytes =>
            match utf8Decode json_bytes with
            | none => .err client_id (strLit "Base64 decode failed: ")
            | some json_str =>
              match jloads json_str with
              | none => .err client_id (strLit "JSON parse failed: ")
              | some command =>
                match command with
                | .jobj kvs =>
                  if (kvs.map Prod.fst).contains (strLit "action") then .ok client_id command
                  else .err client_id (strLit "Command missing required \"action\" field")
                | _ => .err client_id (strLit "Command must be a JSON object")

/-- `client_id & 0x7F` on a Python integer (possibly negative). -/
def maskCid (cid : Int) : Nat := (cid % 128).toNat

/-- Header/payload/footer assembly shared by the builders. -/
def mkFrame (origin cid continuation msg_type status : Nat) (payload : List Nat) : List Nat :=
  SYSEX_START :: MANUFACTURER_ID :: origin :: cid :: continuation :: msg_type :: status ::
    (payload ++ [SYSEX_END])

/-- `build_sysex_response(client_id, response, success)`.  `json.dumps`,
UTF-8 and base64 encoding are total on model values, so the Python
fallback `except` branch is unreachable and not modelled. -/
def build_sysex_response (client_id : Int) (response : JValue) (success : Bool) : List Nat :=
  mkFrame ORIGIN_SERVER (maskCid client_id) 0 MSG_TYPE_RESPONSE
    (if success then STATUS_OK else STATUS_ERROR)
    (b64encode (utf8Encode (jdumps response)))

/-- The chunk loop of `build_chunked_sysex_response`
(`for i in range(0, len(base64_str), MAX_PAYLOAD_BYTES)`), fuelled so that
it computes by structural recursion; fuel `length` is always enough since
each pass consumes `MAX_PAYLOAD_BYTES` characters. -/
def chunkFramesF (cid status : Nat) : Nat → List Nat → List (List Nat)
  | _, [] => []
  | 0, _ => []
  | fuel + 1, s =>
    if s.length ≤ MAX_PAYLOAD_BYTES then [mkFrame ORIGIN_SERVER cid 0 MSG_TYPE_RESPONSE status s]
    else
      mkFrame ORIGIN_SERVER cid 1 MSG_TYPE_RESPONSE status (s.take MAX_PAYLOAD_BYTES) ::
        chunkFramesF cid status fuel (s.drop MAX_PAYLOAD_BYTES)

/-- `build_chunked_sysex_response(client_id, response, success)`. -/
def build_chunked_sysex_response (client_id : Int) (response : JValue) (success : Bool) :
    List (List Nat) :=
  let base64_str := b64encode (utf8Encode (jdumps response))
  chunkFramesF (maskCid client_id) (if success then STATUS_OK else STATUS_ERROR)
    base64_str.length base64_str

/-- `build_sysex_command(client_id, action, params)`.  The `params or {}`
default is the identity on an explicitly supplied mapping (an absent
`params` is the empty mapping). -/
def build_sysex_command (client_id : Int) (action : List Nat)
    (params : List (List Nat × JValue)) : List Nat :=
  let command : JValue :=
    .jobj [(strLit "action", .jstr action), (strLit "params", .jobj params)]
  mkFrame ORIGIN_CLIENT (maskCid client_id) 0 MSG_TYPE_COMMAND STATUS_OK
    (b64encode (utf8Encode (jdumps command)))

/-! ## `protocol/commands.py` -/

/-- A handler registry (the module-level `_handlers` dict), passed
explicitly: keys are action strings, values are handler functions.
Handlers are modelled as total functions on model values (a handler that
raises is out of model scope; no claim involves one). -/
def Registry : Type := List (List Nat × (JValue → JValue))

/-- `_handlers.get(action)` for a string action. -/
def lookupHandler : Registry → List Nat → Option (JValue → JValue)
  | [], _ => none
  | (k, h) :: rest, a => if k = a then some h else lookupHandler rest a

/-- Python truthiness of a model value (`if not action`). -/
def truthy : JValue → Bool
  | .jnull => false
  | .jbool b => b
  | .jint n => n ≠ 0
  | .jstr s => !s.isEmpty
  | .jarr xs => !xs.isEmpty
  | .jobj kvs => !kvs.isEmpty

/-- `dict.get(k)` on an association list. -/
def objGet : List (List Nat × JValue) → List Nat → Option JValue
  | [], _ => none
  | (k, v) :: rest, a => if k = a then some v else objGet rest a

/-- `dict.get(k, d)`. -/
def objGetD (kvs : List (List Nat × JValue)) (k : List Nat) (d : JValue) : JValue :=
  (objGet kvs k).getD d

/-- `{'success': False, 'error': msg}` (insertion order as in the
literal). -/
def errorEnvelope (msg : List Nat) : JValue :=
  .jobj [(strLit "success", .jbool false), (strLit "error", .jstr msg)]

/-- `execute_command(parsed)` against a given registry state.

Branches whose Python behaviour is raising-and-catching into the
`Handler error:` envelope with an interpreter-generated message (a
non-dict `command`, on which `.get` raises `AttributeError`, and an
unhashable non-string `action` value, on which `_handlers.get` raises
`TypeError`) keep the `Handler error: ` prefix with the exception text
abstracted; no theorem depends on those texts.  A truthy `int`/`bool`
action value is hashable, misses the string-keyed registry, and lands in
the `Unknown action:` branch with `str(action)` interpolated. -/
def execute_command (registry : Registry) (parsed : ParseResult) : JValue :=
  match parsed with
  | .err _ msg => errorEnvelope msg
  | .ok _ command =>
    match command with
    | .jobj kvs =>
      let action := objGetD kvs (strLit "action") .jnull
      let params := objGetD kvs (strLit "params") (.jobj [])
      if truthy action = false then errorEnvelope (strLit "No action specified in command")
      else
        match action with
        | .jstr aname =>
          match lookupHandler registry aname with
          | none => errorEnvelope (strLit "Unknown action: " ++ aname)
          | some handler =>
            match handler params with
            | .jobj rkvs =>
              if (rkvs.map Prod.fst).contains (strLit "success") then .jobj rkvs
              else .jobj (rkvs ++ [(strLit "success", .jbool true)])
            | v => .jobj [(strLit "success", .jbool true), (strLit "result", v)]
        | .jint n => errorEnvelope (strLit "Unknown action: " ++ intRepr n)
        | .jbool true => errorEnvelope (strLit "Unknown action: True")
        | _ => errorEnvelope (strLit "Handler error: ")
    | _ => errorEnvelope (strLit "Handler error: ")

/-! ## `device_FLBridge.py` -/

/-- A record of the `_response_queue` list: the dicts
`{'client_id': ..., 'response': ..., 'success': ...}`. -/
structure QueueRec where
  client_id : Int
  response : JValue
  success : Bool
deriving DecidableEq

/-- The mutable module state of `device_FLBridge.py` that the claims
touch. -/
structure BridgeState where
  response_queue : List QueueRec
  protocol_loaded : Bool
deriving DecidableEq

/-- `OnSysEx(event)` on the SysEx bytes carried by the event, returning
the updated state and the frames written out via `device.midiOutSysex`
within this same callback invocation (in order).  Logging and
`event.handled` are not modelled; the outer catch-all is unreachable on
model values (every step of the body is total). -/
def OnSysEx (registry : Registry) (st : BridgeState) (sysex_data : List Nat) :
    BridgeState × List (List Nat) :=
  if st.protocol_loaded = false then (st, [])
  else if sysex_data.length < 3 then (st, [])
  else if sysex_data.getD 0 0 ≠ 240 ∨ sysex_data.getD 1 0 ≠ 125 then (st, [])
  else
    match parse_sysex sysex_data with
    | .err client_id msg =>
      ({ st with
          response_queue :=
            st.response_queue ++ [⟨(client_id : Int), errorEnvelope msg, false⟩] }, [])
    | .ok client_id command =>
      let result := execute_command registry (.ok client_id command)
      let success :=
        match result with
        | .jobj rkvs => truthy (objGetD rkvs (strLit "success") (.jbool true))
        | _ => true
      (st, build_chunked_sysex_response (client_id : Int) result success)

/-- `OnIdle()`: returns the updated state and the frames written out via
`device.midiOutSysex` during this invocation. -/
def OnIdle (st : BridgeState) : BridgeState × List (List Nat) :=
  if !st.response_queue.isEmpty && st.protocol_loaded then
    match st.response_queue with
    | r :: rest =>
      ({ st with response_queue := rest },
        [build_sysex_response r.client_id r.response r.success])
    | [] => (st, [])
  else (st, [])

/-! ## Measures and guards used by the round-trip development -/

mutual

/-- Fuel bound: `parseValue` succeeds on a serialized value given at
least this much fuel.  It also serves as the structural measure for
induction over `JValue` (children have strictly smaller `jfuel`). -/
def jfuel : JValue → Nat
  | .jnull => 1
  | .jbool _ => 1
  | .jint _ => 1
  | .jstr _ => 1
  | .jarr xs => 1 + jfuelList xs
  | .jobj kvs => 1 + jfuelKvs kvs

def jfuelList : List JValue → Nat
  | [] => 0
  | x :: rest => 1 + max (jfuel x) (jfuelList rest)

def jfuelKvs : List (List Nat × JValue) → Nat
  | [] => 0
  | (_, v) :: rest => 1 + max (jfuel v) (jfuelKvs rest)

end

/-- The input does not continue with a character that could extend a
just-parsed number (a digit, `.`, `e` or `E`).  Any input position right
after a serialized value inside a serialized document satisfies this. -/
def numStop : List Nat → Bool
  | [] => true
  | c :: _ => !isDigit c && c ≠ 46 && c ≠ 101 && c ≠ 69

/-! # Lemmas

First the codec layers (base64, UTF-8, decimal/hex text), then the JSON
round trip, then the frame-level and dispatcher-level claims. -/

/-! ## Base64 round trip -/

theorem b64val_b64char : ∀ n < 64, b64val (b64char n) = some n := by decide

theorem b64val_char_isSome (n : Nat) : (b64val (b64char n)).isSome = true := by
  simp only [b64char, b64val]
  split_ifs <;> simp_all <;> omega

theorem b64char_ne_61 (n : Nat) : b64char n ≠ 61 := by
  simp only [b64char]
  split_ifs <;> omega

theorem b64char_lt128 (n : Nat) : b64char n < 128 := by
  simp only [b64char]
  split_ifs <;> omega

theorem b64encode_mem (bs : List Nat) :
    ∀ c ∈ b64encode bs, ((b64val c).isSome || c = 61) = true ∧ c < 128 := by
  induction bs using b64encode.induct with
  | case1 => simp [b64encode]
  | case2 a =>
    simp [b64encode]
    refine ⟨⟨?_, ?_⟩, ?_, ?_⟩ <;> simp [b64val_char_isSome, b64char_lt128]
  | case3 a b =>
    simp [b64encode]
    refine ⟨⟨?_, ?_⟩, ⟨?_, ?_⟩, ?_, ?_⟩ <;> simp [b64val_char_isSome, b64char_lt128]
  | case4 a b c rest ih =>
    intro x hx
    simp only [b64encode, List.mem_cons] at hx
    rcases hx with rfl | rfl | rfl | rfl | hx
    · exact ⟨by simp [b64val_char_isSome], b64char_lt128 _⟩
    · exact ⟨by simp [b64val_char_isSome], b64char_lt128 _⟩
    · exact ⟨by simp [b64val_char_isSome], b64char_lt128 _⟩
    · exact ⟨by simp [b64val_char_isSome], b64char_lt128 _⟩
    · exact ih x hx

theorem b64encode_filter (bs : List Nat) :
    (b64encode bs).filter (fun c => (b64val c).isSome || c = 61) = b64encode bs :=
  List.filter_eq_self.mpr (fun c hc => (b64encode_mem bs c hc).1)

theorem b64encode_length_mod4 (bs : List Nat) : (b64encode bs).length % 4 = 0 := by
  induction bs using b64encode.induct with
  | case1 => simp [b64encode]
  | case2 a => simp [b64encode]
  | case3 a b => simp [b64encode]
  | case4 a b c rest ih => simp [b64encode]; omega

theorem b64decodeGroups_encode (bs : List Nat) (h : ∀ b ∈ bs, b < 256) :
    b64decodeGroups (b64encode bs) = some bs := by
  induction bs using b64encode.induct with
  | case1 => simp [b64encode, b64decodeGroups]
  | case2 a =>
    have ha : a < 256 := h a (by simp)
    have h1 := b64val_b64char (a / 4) (by omega)
    have h2 := b64val_b64char (a % 4 * 16) (by omega)
    simp [b64encode, b64decodeGroups, h1, h2]
    omega
  | case3 a b =>
    have ha : a < 256 := h a (by simp)
    have hb : b < 256 := h b (by simp)
    have h1 := b64val_b64char (a / 4) (by omega)
    have h2 := b64val_b64char (a % 4 * 16 + b / 16) (by omega)
    have h3 := b64val_b64char (b % 16 * 4) (by omega)
    simp [b64encode, b64decodeGroups, h1, h2, h3, b64char_ne_61]
    constructor <;> omega
  | case4 a b c rest ih =>
    have ha : a < 256 := h a (by simp)
    have hb : b < 256 := h b (by simp)
    have hc : c < 256 := h c (by simp)
    have hrest : ∀ x ∈ rest, x < 256 := fun x hx => h x (by simp [hx])
    have h1 := b64val_b64char (a / 4) (by omega)
    have h2 := b64val_b64char (a % 4 * 16 + b / 16) (by omega)
    have h3 := b64val_b64char (b % 16 * 4 + c / 64) (by omega)
    have h4 := b64val_b64char (c % 64) (by omega)
    simp [b64encode, b64decodeGroups, h1, h2, h3, h4, b64char_ne_61, ih hrest]
    refine ⟨by omega, by omega, by omega⟩

theorem b64decode_encode (bs : List Nat) (h : ∀ b ∈ bs, b < 256) :
    b64decode (b64encode bs) = some bs := by
  simp only [b64decode, b64encode_filter, b64encode_length_mod4, if_pos]
  exact b64decodeGroups_encode bs h

theorem b64encode_lt128 (bs : List Nat) : ∀ c ∈ b64encode bs, c < 128 :=
  fun c hc => (b64encode_mem bs c hc).2

/-! ## UTF-8 on ASCII -/

theorem utf8EncodeChar_ascii (c : Nat) (h : c < 128) : utf8EncodeChar c = [c] := by
  simp [utf8EncodeChar, h]

theorem utf8Encode_ascii (s : List Nat) (h : ∀ c ∈ s, c < 128) : utf8Encode s = s := by
  induction s with
  | nil => simp [utf8Encode]
  | cons c rest ih =>
    have hc : c < 128 := h c (by simp)
    have ih2 := ih (fun x hx => h x (by simp [hx]))
    simp only [utf8Encode, List.map_cons, List.flatten_cons] at ih2 ⊢
    rw [utf8EncodeChar_ascii c hc, ih2]
    rfl

theorem utf8DecodeF_ascii :
    ∀ fuel (s : List Nat), s.length < fuel → (∀ b ∈ s, b < 128) →
      utf8DecodeF fuel s = some s := by
  intro fuel
  induction fuel with
  | zero => omega
  | succ f ih =>
    intro s hlen h
    match s with
    | [] => rfl
    | b :: rest =>
      have hb : b < 128 := h b (by simp)
      have ih2 := ih rest (by simp at hlen; omega) (fun x hx => h x (by simp [hx]))
      simp [utf8DecodeF, hb, ih2]

theorem utf8Decode_ascii (s : List Nat) (h : ∀ b ∈ s, b < 128) : utf8Decode s = some s :=
  utf8DecodeF_ascii (s.length + 1) s (by omega) h

/-! ## Decimal representations -/

theorem natReprAux_irrel :
    ∀ f1 f2 n, n < f1 → n < f2 → natReprAux f1 n = natReprAux f2 n := by
  intro f1
  induction f1 with
  | zero => omega
  | succ f ih =>
    intro f2 n h1 h2
    match f2, h2 with
    | f2 + 1, _ =>
      simp only [natReprAux]
      split
      · rfl
      · rename_i hn
        rw [ih f2 (n / 10) (by omega) (by omega)]

theorem natRepr_eq (n : Nat) :
    natRepr n = if n < 10 then [48 + n] else natRepr (n / 10) ++ [48 + n % 10] := by
  have h1 : natRepr n = if n < 10 then [48 + n] else natReprAux n (n / 10) ++ [48 + n % 10] := by
    simp only [natRepr, natReprAux]
  rw [h1]
  split
  · rfl
  · rename_i hn
    rw [show natRepr (n / 10) = natReprAux (n / 10 + 1) (n / 10) from rfl,
      natReprAux_irrel n (n / 10 + 1) (n / 10) (by omega) (by omega)]

theorem natRepr_digits (n : Nat) : ∀ c ∈ natRepr n, 48 ≤ c ∧ c ≤ 57 := by
  induction n using Nat.strong_induction_on with
  | _ n ih =>
    rw [natRepr_eq]
    split
    · rename_i h
      intro c hc
      simp at hc
      omega
    · rename_i h
      intro c hc
      simp only [List.mem_append, List.mem_singleton] at hc
      rcases hc with hc | rfl
      · exact ih (n / 10) (by omega) c hc
      · omega

theorem natRepr_ne_nil (n : Nat) : natRepr n ≠ [] := by
  rw [natRepr_eq]
  split
  · simp
  · simp

theorem natRepr_head_ne_48 (n : Nat) (hn : 0 < n) : (natRepr n).head? ≠ some 48 := by
  induction n using Nat.strong_induction_on with
  | _ n ih =>
    rw [natRepr_eq]
    split
    · rename_i h
      intro hcontra
      simp at hcontra
      omega
    · rename_i h
      rw [List.head?_append_of_ne_nil _ (natRepr_ne_nil (n / 10))]
      exact ih (n / 10) (by omega) (by omega)

theorem digitsVal_append_digit (ds : List Nat) (d : Nat) :
    digitsVal (ds ++ [d]) = digitsVal ds * 10 + (d - 48) := by
  simp [digitsVal, List.foldl_append]

theorem digitsVal_natRepr (n : Nat) : digitsVal (natRepr n) = n := by
  induction n using Nat.strong_induction_on with
  | _ n ih =>
    rw [natRepr_eq]
    split
    · rename_i h
      simp only [digitsVal, List.foldl_cons, List.foldl_nil]
      omega
    · rename_i h
      rw [digitsVal_append_digit, ih (n / 10) (by omega)]
      omega

theorem takeDigits_append (ds rest : List Nat) (hds : ∀ c ∈ ds, isDigit c = true)
    (hrest : numStop rest = true) : takeDigits (ds ++ rest) = (ds, rest) := by
  induction ds with
  | nil =>
    simp only [List.nil_append]
    match rest with
    | [] => rfl
    | c :: r =>
      simp only [numStop, Bool.and_eq_true, Bool.not_eq_eq_eq_not, Bool.not_true,
        decide_eq_true_eq] at hrest
      simp [takeDigits, hrest.1.1]
  | cons c t ih =>
    have hc : isDigit c = true := hds c (by simp)
    have iht := ih (fun x hx => hds x (by simp [hx]))
    simp [takeDigits, hc, iht]

theorem isFloatCont_numStop (rest : List Nat) (h : numStop rest = true) :
    isFloatCont rest = false := by
  match rest with
  | [] => rfl
  | c :: r =>
    simp only [numStop, Bool.and_eq_true, Bool.not_eq_eq_eq_not, Bool.not_true,
      decide_eq_true_eq] at h
    obtain ⟨⟨⟨hd, h46⟩, h101⟩, h69⟩ := h
    simp [isFloatCont, h46, h101, h69]

theorem parseUNum_natRepr (n : Nat) (rest : List Nat) (h : numStop rest = true) :
    parseUNum (natRepr n ++ rest) = some (n, rest) := by
  have hds : ∀ c ∈ natRepr n, isDigit c = true := by
    intro c hc
    have := natRepr_digits n c hc
    simp [isDigit]
    omega
  simp only [parseUNum, takeDigits_append _ _ hds h]
  rw [if_neg (by simpa using natRepr_ne_nil n)]
  rw [if_neg ?_, if_neg (by simp [isFloatCont_numStop rest h])]
  · simp [digitsVal_natRepr]
  · rintro ⟨h48, hlen⟩
    rcases Nat.eq_zero_or_pos n with rfl | hpos
    · apply hlen
      have : natRepr 0 = [48] := by rw [natRepr_eq]; simp
      simp [this]
    · exact natRepr_head_ne_48 n hpos h48

theorem parseNum_intRepr (n : Int) (rest : List Nat) (h : numStop rest = true) :
    parseNum (intRepr n ++ rest) = some (n, rest) := by
  match n with
  | .ofNat m =>
    simp only [intRepr]
    obtain ⟨c, t, hct⟩ : ∃ c t, natRepr m = c :: t := by
      match hm : natRepr m with
      | [] => exact absurd hm (natRepr_ne_nil m)
      | c :: t => exact ⟨c, t, rfl⟩
    have hc : 48 ≤ c ∧ c ≤ 57 := natRepr_digits m c (by simp [hct])
    rw [hct]
    simp only [List.cons_append, parseNum]
    rw [if_neg (by omega)]
    rw [← List.cons_append, ← hct, parseUNum_natRepr m rest h]
    simp
  | .negSucc m =>
    have hp := parseUNum_natRepr (m + 1) rest h
    simp only [intRepr, List.cons_append, parseNum, if_true, hp, Option.map_some]
    simp [Int.negSucc_eq]

/-! ## JSON string round trip -/

theorem hexVal_hexDig : ∀ n < 16, hexVal (hexDig n) = some n := by decide

theorem escChar_len_pos (c : Nat) : 0 < (escChar c).length := by
  by_cases h1 : c = 34
  · simp [escChar, h1]
  by_cases h2 : c = 92
  · simp [escChar, h1, h2]
  by_cases h3 : c = 8
  · simp [escChar, h1, h2, h3]
  by_cases h4 : c = 9
  · simp [escChar, h1, h2, h3, h4]
  by_cases h5 : c = 10
  · simp [escChar, h1, h2, h3, h4, h5]
  by_cases h6 : c = 12
  · simp [escChar, h1, h2, h3, h4, h5, h6]
  by_cases h7 : c = 13
  · simp [escChar, h1, h2, h3, h4, h5, h6, h7]
  by_cases h8 : c < 32
  · simp [escChar, h1, h2, h3, h4, h5, h6, h7, h8, hex4]
  by_cases h9 : c < 127
  · simp [escChar, h1, h2, h3, h4, h5, h6, h7, h8, h9]
  by_cases h10 : c < 65536
  · simp [escChar, h1, h2, h3, h4, h5, h6, h7, h8, h9, h10, hex4]
  · simp [escChar, h1, h2, h3, h4, h5, h6, h7, h8, h9, h10, hex4]

theorem parseStrStep_u_single (h1 h2 h3 h4 : Nat) (rest3 : List Nat) (a b c2 d : Nat)
    (e1 : hexVal h1 = some a) (e2 : hexVal h2 = some b) (e3 : hexVal h3 = some c2)
    (e4 : hexVal h4 = some d)
    (hns : ¬(55296 ≤ a * 4096 + b * 256 + c2 * 16 + d ∧ a * 4096 + b * 256 + c2 * 16 + d ≤ 56319)) :
    parseStrStep (92 :: 117 :: h1 :: h2 :: h3 :: h4 :: rest3) =
      some (some (a * 4096 + b * 256 + c2 * 16 + d), rest3) := by
  rw [parseStrStep.eq_def]
  simp only [e1, e2, e3, e4]
  norm_num [hns]

theorem parseStrStep_u_pair (h1 h2 h3 h4 k1 k2 k3 k4 : Nat) (rest5 : List Nat)
    (a b c2 d e1v e2v e3v e4v : Nat)
    (e1 : hexVal h1 = some a) (e2 : hexVal h2 = some b) (e3 : hexVal h3 = some c2)
    (e4 : hexVal h4 = some d)
    (f1 : hexVal k1 = some e1v) (f2 : hexVal k2 = some e2v) (f3 : hexVal k3 = some e3v)
    (f4 : hexVal k4 = some e4v)
    (hhi : 55296 ≤ a * 4096 + b * 256 + c2 * 16 + d ∧ a * 4096 + b * 256 + c2 * 16 + d ≤ 56319)
    (hlo : 56320 ≤ e1v * 4096 + e2v * 256 + e3v * 16 + e4v ∧
      e1v * 4096 + e2v * 256 + e3v * 16 + e4v ≤ 57343) :
    parseStrStep (92 :: 117 :: h1 :: h2 :: h3 :: h4 :: 92 :: 117 :: k1 :: k2 :: k3 :: k4 :: rest5) =
      some (some (65536 + (a * 4096 + b * 256 + c2 * 16 + d - 55296) * 1024 +
        (e1v * 4096 + e2v * 256 + e3v * 16 + e4v - 56320)), rest5) := by
  rw [parseStrStep.eq_def]
  simp only [e1, e2, e3, e4, f1, f2, f3, f4]
  norm_num [hhi, hlo]

theorem parseStrStep_lit (c : Nat) (rest : List Nat) (h34 : c ≠ 34) (h92 : c ≠ 92)
    (h32 : ¬(c < 32)) : parseStrStep (c :: rest) = some (some c, rest) := by
  rw [parseStrStep.eq_def]
  simp only [h34, h92, h32, if_false, if_neg, ite_false]

theorem parseStrStep_quote (rest : List Nat) : parseStrStep (34 :: rest) = some (none, rest) := rfl

theorem escChar_of_lt32 (c : Nat) (h3 : c ≠ 8) (h4 : c ≠ 9) (h5 : c ≠ 10) (h6 : c ≠ 12)
    (h7 : c ≠ 13) (h8 : c < 32) : escChar c = 92 :: 117 :: hex4 c := by
  have h1 : c ≠ 34 := by omega
  have h2 : c ≠ 92 := by omega
  simp [escChar, h1, h2, h3, h4, h5, h6, h7, h8]

theorem parseStrStep_esc (c : Nat) (tail : List Nat) (hv : validCp c = true) :
    parseStrStep (escChar c ++ tail) = some (some c, tail) := by
  simp only [validCp, Bool.or_eq_true, Bool.and_eq_true, decide_eq_true_eq] at hv
  by_cases h1 : c = 34
  · subst h1; rfl
  by_cases h2 : c = 92
  · subst h2; rfl
  by_cases h3 : c = 8
  · subst h3; rfl
  by_cases h4 : c = 9
  · subst h4; rfl
  by_cases h5 : c = 10
  · subst h5; rfl
  by_cases h6 : c = 12
  · subst h6; rfl
  by_cases h7 : c = 13
  · subst h7; rfl
  by_cases h8 : c < 32
  · rw [escChar_of_lt32 c h3 h4 h5 h6 h7 h8]
    simp only [hex4]
    have hstep := parseStrStep_u_single (hexDig (c / 4096 % 16)) (hexDig (c / 256 % 16))
      (hexDig (c / 16 % 16)) (hexDig (c % 16)) tail (c / 4096 % 16) (c / 256 % 16)
      (c / 16 % 16) (c % 16) (hexVal_hexDig _ (by omega)) (hexVal_hexDig _ (by omega))
      (hexVal_hexDig _ (by omega)) (hexVal_hexDig _ (by omega)) (by omega)
    simp only [List.cons_append, List.singleton_append, List.nil_append] at hstep ⊢
    rw [hstep]
    have : c / 4096 % 16 * 4096 + c / 256 % 16 * 256 + c / 16 % 16 * 16 + c % 16 = c := by omega
    rw [this]
  by_cases h9 : c < 127
  · have hesc : escChar c = [c] := by
      simp [escChar, h1, h2, h3, h4, h5, h6, h7, h8, h9]
    rw [hesc]
    exact parseStrStep_lit c tail h1 h2 h8
  by_cases h10 : c < 65536
  · have hesc : escChar c = 92 :: 117 :: hexDig (c / 4096 % 16) :: hexDig (c / 256 % 16) ::
        hexDig (c / 16 % 16) :: [hexDig (c % 16)] := by
      simp [escChar, h1, h2, h3, h4, h5, h6, h7, h8, h9, h10, hex4]
    rw [hesc]
    have hstep := parseStrStep_u_single (hexDig (c / 4096 % 16)) (hexDig (c / 256 % 16))
      (hexDig (c / 16 % 16)) (hexDig (c % 16)) tail (c / 4096 % 16) (c / 256 % 16)
      (c / 16 % 16) (c % 16) (hexVal_hexDig _ (by omega)) (hexVal_hexDig _ (by omega))
      (hexVal_hexDig _ (by omega)) (hexVal_hexDig _ (by omega)) (by omega)
    simp only [List.cons_append, List.singleton_append, List.nil_append] at hstep ⊢
    rw [hstep]
    have : c / 4096 % 16 * 4096 + c / 256 % 16 * 256 + c / 16 % 16 * 16 + c % 16 = c := by omega
    rw [this]
  · have hX : c - 65536 < 1048576 := by omega
    have hesc : escChar c = 92 :: 117 :: hexDig ((55296 + (c - 65536) / 1024) / 4096 % 16) ::
        hexDig ((55296 + (c - 65536) / 1024) / 256 % 16) ::
        hexDig ((55296 + (c - 65536) / 1024) / 16 % 16) ::
        hexDig ((55296 + (c - 65536) / 1024) % 16) ::
        92 :: 117 :: hexDig ((56320 + (c - 65536) % 1024) / 4096 % 16) ::
        hexDig ((56320 + (c - 65536) % 1024) / 256 % 16) ::
        hexDig ((56320 + (c - 65536) % 1024) / 16 % 16) ::
        [hexDig ((56320 + (c - 65536) % 1024) % 16)] := by
      simp [escChar, h1, h2, h3, h4, h5, h6, h7, h8, h9, h10, hex4]
    rw [hesc]
    have hstep := parseStrStep_u_pair
      (hexDig ((55296 + (c - 65536) / 1024) / 4096 % 16))
      (hexDig ((55296 + (c - 65536) / 1024) / 256 % 16))
      (hexDig ((55296 + (c - 65536) / 1024) / 16 % 16))
      (hexDig ((55296 + (c - 65536) / 1024) % 16))
      (hexDig ((56320 + (c - 65536) % 1024) / 4096 % 16))
      (hexDig ((56320 + (c - 65536) % 1024) / 256 % 16))
      (hexDig ((56320 + (c - 65536) % 1024) / 16 % 16))
      (hexDig ((56320 + (c - 65536) % 1024) % 16))
      tail
      ((55296 + (c - 65536) / 1024) / 4096 % 16) ((55296 + (c - 65536) / 1024) / 256 % 16)
      ((55296 + (c - 65536) / 1024) / 16 % 16) ((55296 + (c - 65536) / 1024) % 16)
      ((56320 + (c - 65536) % 1024) / 4096 % 16) ((56320 + (c - 65536) % 1024) / 256 % 16)
      ((56320 + (c - 65536) % 1024) / 16 % 16) ((56320 + (c - 65536) % 1024) % 16)
      (hexVal_hexDig _ (by omega)) (hexVal_hexDig _ (by omega)) (hexVal_hexDig _ (by omega))
      (hexVal_hexDig _ (by omega)) (hexVal_hexDig _ (by omega)) (hexVal_hexDig _ (by omega))
      (hexVal_hexDig _ (by omega)) (hexVal_hexDig _ (by omega)) (by omega) (by omega)
    simp only [List.cons_append, List.singleton_append, List.nil_append] at hstep ⊢
    rw [hstep]
    have : 65536 +
        ((55296 + (c - 65536) / 1024) / 4096 % 16 * 4096 +
          (55296 + (c - 65536) / 1024) / 256 % 16 * 256 +
          (55296 + (c - 65536) / 1024) / 16 % 16 * 16 +
          (55296 + (c - 65536) / 1024) % 16 - 55296) * 1024 +
        ((56320 + (c - 65536) % 1024) / 4096 % 16 * 4096 +
          (56320 + (c - 65536) % 1024) / 256 % 16 * 256 +
          (56320 + (c - 65536) % 1024) / 16 % 16 * 16 +
          (56320 + (c - 65536) % 1024) % 16 - 56320) = c := by omega
    rw [this]

theorem parseStrF_rt :
    ∀ (s rest : List Nat) fuel, validStr s = true → (escStr s).length < fuel →
      parseStrF fuel (escStr s ++ 34 :: rest) = some (s, rest) := by
  intro s
  induction s with
  | nil =>
    intro rest fuel _ hlen
    match fuel with
    | f + 1 => simp [escStr, parseStrF, parseStrStep]
  | cons c s2 ih =>
    intro rest fuel hv hlen
    simp only [validStr, List.all_cons, Bool.and_eq_true] at hv
    have hesc : escStr (c :: s2) = escChar c ++ escStr s2 := by simp [escStr]
    rw [hesc] at hlen ⊢
    match fuel with
    | f + 1 =>
      have hlen2 : (escStr s2).length < f := by
        have := escChar_len_pos c
        simp only [List.length_append] at hlen
        omega
      have ih2 := ih rest f hv.2 hlen2
      rw [List.append_assoc]
      simp only [parseStrF, parseStrStep_esc c _ hv.1, ih2, Option.map_some]
      rfl

theorem parseStr_rt (s rest : List Nat) (hv : validStr s = true) :
    parseStr (escStr s ++ 34 :: rest) = some (s, rest) := by
  apply parseStrF_rt
  · exact hv
  · simp only [List.length_append, List.length_cons, parseStr]
    omega

/-! ## Support lemmas for the JSON value round trip -/

theorem skipWs_not_ws (c : Nat) (r : List Nat) (h : isWs c = false) :
    skipWs (c :: r) = c :: r := by
  simp [skipWs, h]

theorem skipWs_32 (r : List Nat) : skipWs (32 :: r) = skipWs r := by
  simp [skipWs, isWs]

theorem numStop_44 (r : List Nat) : numStop (44 :: r) = true := by simp [numStop, isDigit]

theorem numStop_93 (r : List Nat) : numStop (93 :: r) = true := by simp [numStop, isDigit]

theorem numStop_125 (r : List Nat) : numStop (125 :: r) = true := by simp [numStop, isDigit]

theorem jfuel_pos (v : JValue) : 0 < jfuel v := by
  cases v <;> simp [jfuel]

theorem jfuelList_mem (x : JValue) (xs : List JValue) (h : x ∈ xs) :
    jfuel x < jfuelList xs := by
  induction xs with
  | nil => cases h
  | cons y t ih =>
    rcases List.mem_cons.mp h with rfl | hm
    · simp [jfuelList]
      omega
    · have := ih hm
      simp [jfuelList]
      omega

theorem jfuelKvs_mem (k : List Nat) (v : JValue) (kvs : List (List Nat × JValue))
    (h : (k, v) ∈ kvs) : jfuel v < jfuelKvs kvs := by
  induction kvs with
  | nil => cases h
  | cons p t ih =>
    rcases List.mem_cons.mp h with rfl | hm
    · simp [jfuelKvs]
      omega
    · have := ih hm
      obtain ⟨k2, v2⟩ := p
      simp [jfuelKvs]
      omega

theorem jdumps_cons (v : JValue) :
    ∃ c t, jdumps v = c :: t ∧ isWs c = false ∧ c ≠ 93 ∧ c ≠ 125 := by
  cases v with
  | jnull => exact ⟨110, [117, 108, 108], by decide, by decide, by decide, by decide⟩
  | jbool b =>
    cases b
    · exact ⟨102, [97, 108, 115, 101], by decide, by decide, by decide, by decide⟩
    · exact ⟨116, [114, 117, 101], by decide, by decide, by decide, by decide⟩
  | jint n =>
    cases n with
    | ofNat m =>
      obtain ⟨c, t, hct⟩ : ∃ c t, natRepr m = c :: t := by
        match hm : natRepr m with
        | [] => exact absurd hm (natRepr_ne_nil m)
        | c :: t => exact ⟨c, t, rfl⟩
      have hd : 48 ≤ c ∧ c ≤ 57 := natRepr_digits m c (by simp [hct])
      refine ⟨c, t, ?_, ?_, ?_, ?_⟩
      · simp [jdumps, intRepr, hct]
      · simp [isWs]; omega
      · omega
      · omega
    | negSucc m =>
      exact ⟨45, natRepr (m + 1), by simp [jdumps, intRepr], by decide, by decide, by decide⟩
  | jstr s =>
    exact ⟨34, escStr s ++ [34], by simp [jdumps, encStr], by decide, by decide, by decide⟩
  | jarr xs =>
    exact ⟨91, jdumpsList xs ++ [93], by simp [jdumps], by decide, by decide, by decide⟩
  | jobj kvs =>
    exact ⟨123, jdumpsKvs kvs ++ [125], by simp [jdumps], by decide, by decide, by decide⟩

theorem skipWs_jdumps (v : JValue) (r : List Nat) :
    skipWs (jdumps v ++ r) = jdumps v ++ r := by
  obtain ⟨c, t, hct, hws, _, _⟩ := jdumps_cons v
  rw [hct, List.cons_append, skipWs_not_ws c _ hws]

theorem pyDictInsert_not_mem (acc : List (List Nat × JValue)) (k : List Nat) (v : JValue)
    (h : ¬ k ∈ acc.map Prod.fst) : pyDictInsert acc k v = acc ++ [(k, v)] := by
  rw [pyDictInsert, if_neg (by simpa using h)]

theorem mkPyDict_aux (kvs : List (List Nat × JValue)) :
    ∀ acc, wfKvs kvs = true → (∀ p ∈ kvs, ¬ p.1 ∈ acc.map Prod.fst) →
      kvs.foldl (fun a p => pyDictInsert a p.1 p.2) acc = acc ++ kvs := by
  induction kvs with
  | nil => intro acc _ _; simp
  | cons p t ih =>
    intro acc hwf hdisj
    obtain ⟨k, v⟩ := p
    simp only [wfKvs, Bool.and_eq_true] at hwf
    simp only [List.foldl_cons]
    rw [pyDictInsert_not_mem acc k v (by simpa using hdisj (k, v) (by simp))]
    rw [ih (acc ++ [(k, v)]) hwf.2 ?_]
    · simp
    · intro p hp
      simp only [List.map_append, List.mem_append, List.map_cons, List.map_nil,
        List.mem_singleton, not_or]
      refine ⟨by simpa using hdisj p (by simp [hp]), ?_⟩
      intro hk
      have hnot : ¬ k ∈ t.map Prod.fst := by simpa using hwf.1.2
      have hmem : p.1 ∈ t.map Prod.fst := List.mem_map_of_mem Prod.fst hp
      rw [hk] at hmem
      exact hnot hmem

theorem mkPyDict_nodup (kvs : List (List Nat × JValue)) (hwf : wfKvs kvs = true) :
    mkPyDict kvs = kvs := by
  rw [mkPyDict, mkPyDict_aux kvs [] hwf (by simp)]
  simp

theorem jdumpsList_ne_nil_head (t : List JValue) (r : List Nat) (h : t ≠ []) :
    skipWs (jdumpsList t ++ r) = jdumpsList t ++ r := by
  match t with
  | [x] =>
    rw [show jdumpsList [x] = jdumps x from by simp [jdumpsList]]
    exact skipWs_jdumps x r
  | x :: y :: t2 =>
    rw [show jdumpsList (x :: y :: t2) = jdumps x ++ (44 :: 32 :: jdumpsList (y :: t2)) from by
      simp [jdumpsList]]
    rw [List.append_assoc]
    exact skipWs_jdumps x _

theorem jdumpsKvs_cons_eq (k : List Nat) (v : JValue) (t : List (List Nat × JValue)) :
    ∃ w, jdumpsKvs ((k, v) :: t) = 34 :: w := by
  match t with
  | [] =>
    exact ⟨escStr k ++ 34 :: 58 :: 32 :: jdumps v, by simp [jdumpsKvs, encStr]⟩
  | p :: t2 =>
    exact ⟨escStr k ++ 34 :: 58 :: 32 :: (jdumps v ++ 44 :: 32 :: jdumpsKvs (p :: t2)),
      by simp [jdumpsKvs, encStr]⟩

theorem intRepr_head (n : Int) :
    ∃ c t, intRepr n = c :: t ∧ (c = 45 ∨ (48 ≤ c ∧ c ≤ 57)) := by
  cases n with
  | ofNat m =>
    obtain ⟨c, t, hct⟩ : ∃ c t, natRepr m = c :: t := by
      match hm : natRepr m with
      | [] => exact absurd hm (natRepr_ne_nil m)
      | c :: t => exact ⟨c, t, rfl⟩
    exact ⟨c, t, by simp [intRepr, hct], Or.inr (natRepr_digits m c (by simp [hct]))⟩
  | negSucc m => exact ⟨45, natRepr (m + 1), by simp [intRepr], Or.inl rfl⟩

theorem parseElems_rt_aux (N : Nat)
    (IH : ∀ v rest fuel, jfuel v ≤ N → wfJson v = true → numStop rest = true →
      jfuel v ≤ fuel → parseValue fuel (jdumps v ++ rest) = some (v, rest)) :
    ∀ (xs : List JValue) (rest : List Nat) (fuel : Nat), xs ≠ [] →
      jfuelList xs ≤ N → wfList xs = true → jfuelList xs ≤ fuel →
      parseElems fuel (jdumpsList xs ++ 93 :: rest) = some (xs, rest) := by
  intro xs
  induction xs with
  | nil => intro rest fuel h; exact absurd rfl h
  | cons x t ih =>
    intro rest fuel _ hN hwf hfuel
    simp only [wfList, Bool.and_eq_true] at hwf
    simp only [jfuelList] at hN hfuel
    match fuel with
    | 0 => omega
    | f + 1 =>
      cases t with
      | nil =>
        rw [show jdumpsList [x] = jdumps x from by simp [jdumpsList]]
        have hx := IH x (93 :: rest) f (by simp [jfuelList] at hN; omega) hwf.1
          (numStop_93 rest) (by simp [jfuelList] at hfuel; omega)
        simp [parseElems, hx, skipWs_not_ws, isWs]
      | cons y t2 =>
        rw [show jdumpsList (x :: y :: t2) = jdumps x ++ (44 :: 32 :: jdumpsList (y :: t2)) from by
          simp [jdumpsList], List.append_assoc]
        have hx := IH x (44 :: 32 :: (jdumpsList (y :: t2) ++ 93 :: rest)) f
          (by omega) hwf.1 (numStop_44 _) (by omega)
        have hrec := ih rest f (by simp) (by simp [jfuelList] at hN ⊢; omega) hwf.2
          (by simp [jfuelList] at hfuel ⊢; omega)
        have hskip : skipWs (jdumpsList (y :: t2) ++ 93 :: rest) =
            jdumpsList (y :: t2) ++ 93 :: rest := jdumpsList_ne_nil_head _ _ (by simp)
        simp only [List.cons_append] at hx ⊢
        simp [parseElems, hx, skipWs_not_ws, isWs, skipWs_32, hskip, hrec]

theorem parseMembers_rt_aux (N : Nat)
    (IH : ∀ v rest fuel, jfuel v ≤ N → wfJson v = true → numStop rest = true →
      jfuel v ≤ fuel → parseValue fuel (jdumps v ++ rest) = some (v, rest)) :
    ∀ (kvs : List (List Nat × JValue)) (rest : List Nat) (fuel : Nat), kvs ≠ [] →
      jfuelKvs kvs ≤ N → wfKvs kvs = true → jfuelKvs kvs ≤ fuel →
      parseMembers fuel (jdumpsKvs kvs ++ 125 :: rest) = some (kvs, rest) := by
  intro kvs
  induction kvs with
  | nil => intro rest fuel h; exact absurd rfl h
  | cons p t ih =>
    intro rest fuel _ hN hwf hfuel
    obtain ⟨k, v⟩ := p
    simp only [wfKvs, Bool.and_eq_true] at hwf
    simp only [jfuelKvs] at hN hfuel
    match fuel with
    | 0 => omega
    | f + 1 =>
      have hkey := parseStr_rt k
      cases t with
      | nil =>
        rw [show jdumpsKvs [(k, v)] = (34 :: escStr k ++ [34]) ++ (58 :: 32 :: jdumps v) from by
          simp [jdumpsKvs, encStr]]
        have hv := IH v (125 :: rest) f (by omega) hwf.1.1.2 (numStop_125 rest) (by omega)
        have hk := parseStr_rt k (58 :: 32 :: (jdumps v ++ 125 :: rest)) hwf.1.1.1
        have hskip := skipWs_jdumps v (125 :: rest)
        simp only [List.cons_append, List.append_assoc, List.singleton_append] at hv hk ⊢
        simp [parseMembers, hk, hv, skipWs_not_ws, isWs, skipWs_32, hskip]
      | cons p2 t2 =>
        rw [show jdumpsKvs ((k, v) :: p2 :: t2) =
            (34 :: escStr k ++ [34]) ++ (58 :: 32 :: jdumps v) ++
              (44 :: 32 :: jdumpsKvs (p2 :: t2)) from by
          simp [jdumpsKvs, encStr]]
        have hv := IH v (44 :: 32 :: (jdumpsKvs (p2 :: t2) ++ 125 :: rest)) f
          (by omega) hwf.1.1.2 (numStop_44 _) (by omega)
        have hk := parseStr_rt k
          (58 :: 32 :: (jdumps v ++ (44 :: 32 :: (jdumpsKvs (p2 :: t2) ++ 125 :: rest))))
          hwf.1.1.1
        have hrec := ih rest f (by simp) (by simp [jfuelKvs] at hN ⊢; omega) hwf.2
          (by simp [jfuelKvs] at hfuel ⊢; omega)
        obtain ⟨w, hw⟩ := jdumpsKvs_cons_eq p2.1 p2.2 t2
        have hskip2 : skipWs (jdumpsKvs (p2 :: t2) ++ 125 :: rest) =
            jdumpsKvs (p2 :: t2) ++ 125 :: rest := by
          rw [show ((p2.1, p2.2) : List Nat × JValue) = p2 from by simp] at hw
          rw [hw, List.cons_append, skipWs_not_ws 34 _ (by decide)]
        have hskip := skipWs_jdumps v (44 :: 32 :: (jdumpsKvs (p2 :: t2) ++ 125 :: rest))
        simp only [List.cons_append, List.append_assoc, List.singleton_append] at hv hk ⊢
        simp [parseMembers, hk, hv, skipWs_not_ws, isWs, skipWs_32, hskip, hskip2, hrec]

theorem jdumpsList_expose (t : List JValue) (r : List Nat) (h : t ≠ []) :
    ∃ c w, jdumpsList t ++ r = c :: w ∧ isWs c = false ∧ c ≠ 93 ∧ c ≠ 125 := by
  match t with
  | [x] =>
    obtain ⟨c, w, hcw, h1, h2, h3⟩ := jdumps_cons x
    exact ⟨c, w ++ r, by simp [jdumpsList, hcw], h1, h2, h3⟩
  | x :: y :: t2 =>
    obtain ⟨c, w, hcw, h1, h2, h3⟩ := jdumps_cons x
    refine ⟨c, w ++ (44 :: 32 :: jdumpsList (y :: t2)) ++ r, ?_, h1, h2, h3⟩
    rw [show jdumpsList (x :: y :: t2) = jdumps x ++ (44 :: 32 :: jdumpsList (y :: t2)) from by
      simp [jdumpsList], hcw]
    simp

theorem parseValue_rt : ∀ (N : Nat) (v : JValue) (rest : List Nat) (fuel : Nat),
    jfuel v ≤ N → wfJson v = true → numStop rest = true → jfuel v ≤ fuel →
    parseValue fuel (jdumps v ++ rest) = some (v, rest) := by
  intro N
  induction N with
  | zero =>
    intro v _ _ _ hN
    have := jfuel_pos v
    omega
  | succ n ihN =>
    intro v rest fuel hN hwf hstop hfuel
    have hpos := jfuel_pos v
    match fuel with
    | 0 => omega
    | f + 1 =>
      cases v with
      | jnull =>
        rw [show jdumps .jnull = [110, 117, 108, 108] from by decide]
        simp [parseValue]
      | jbool b =>
        cases b
        · rw [show jdumps (.jbool false) = [102, 97, 108, 115, 101] from by decide]
          simp [parseValue]
        · rw [show jdumps (.jbool true) = [116, 114, 117, 101] from by decide]
          simp [parseValue]
      | jint m =>
        obtain ⟨c, t, hct, hc⟩ := intRepr_head m
        have hnum := parseNum_intRepr m rest hstop
        rw [show jdumps (.jint m) = intRepr m from by simp [jdumps]]
        rw [hct] at hnum ⊢
        have h34 : ¬(c = 34) := by omega
        have h123 : ¬(c = 123) := by omega
        have h91 : ¬(c = 91) := by omega
        have h116 : ¬(c = 116) := by omega
        have h102 : ¬(c = 102) := by omega
        have h110 : ¬(c = 110) := by omega
        have hdig : (c = 45 || isDigit c) = true := by
          rcases hc with rfl | hd
          · simp
          · simp [isDigit]
            omega
        simp only [List.cons_append] at hnum ⊢
        simp [parseValue, h34, h123, h91, h116, h102, h110, hdig, hnum]
      | jstr s =>
        rw [show jdumps (.jstr s) = 34 :: (escStr s ++ [34]) from by simp [jdumps, encStr]]
        have hk := parseStr_rt s rest (by simpa [wfJson] using hwf)
        simp only [List.cons_append, List.append_assoc, List.singleton_append] at hk ⊢
        simp [parseValue, hk]
      | jarr xs =>
        cases xs with
        | nil =>
          rw [show jdumps (.jarr []) = [91, 93] from by decide]
          simp [parseValue, skipWs_not_ws, isWs]
        | cons x t =>
          rw [show jdumps (.jarr (x :: t)) = 91 :: (jdumpsList (x :: t) ++ [93]) from by
            simp [jdumps]]
          simp only [jfuel] at hN hfuel
          have harr := parseElems_rt_aux n ihN (x :: t) rest f (by simp) (by omega)
            (by simpa [wfJson] using hwf) (by omega)
          obtain ⟨c2, w2, hexp2, hws2, h93b, _⟩ := jdumpsList_expose (x :: t) [] (by simp)
          rw [List.append_nil] at hexp2
          rw [hexp2] at harr ⊢
          simp only [List.cons_append, List.append_assoc, List.singleton_append] at harr ⊢
          have hskip2 : skipWs (c2 :: (w2 ++ 93 :: rest)) = c2 :: (w2 ++ 93 :: rest) :=
            skipWs_not_ws _ _ hws2
          simp [parseValue, hskip2, h93b, harr]
      | jobj kvs =>
        cases kvs with
        | nil =>
          rw [show jdumps (.jobj []) = [123, 125] from by decide]
          simp [parseValue, skipWs_not_ws, isWs, mkPyDict]
        | cons p t =>
          obtain ⟨k, v⟩ := p
          rw [show jdumps (.jobj ((k, v) :: t)) = 123 :: (jdumpsKvs ((k, v) :: t) ++ [125]) from by
            simp [jdumps]]
          simp only [jfuel] at hN hfuel
          have hwfk : wfKvs ((k, v) :: t) = true := by simpa [wfJson] using hwf
          have hmem := parseMembers_rt_aux n ihN ((k, v) :: t) rest f (by simp) (by omega)
            hwfk (by omega)
          obtain ⟨w, hw⟩ := jdumpsKvs_cons_eq k v t
          rw [hw] at hmem ⊢
          simp only [List.cons_append, List.append_assoc, List.singleton_append] at hmem ⊢
          have hskip2 : skipWs (34 :: (w ++ 125 :: rest)) = 34 :: (w ++ 125 :: rest) :=
            skipWs_not_ws _ _ (by decide)
          simp [parseValue, hskip2, hmem, mkPyDict_nodup _ hwfk]

theorem jfuelList_le_aux (N : Nat) (IH : ∀ v, jfuel v ≤ N → jfuel v ≤ (jdumps v).length) :
    ∀ xs : List JValue, xs ≠ [] → jfuelList xs ≤ N →
      jfuelList xs ≤ (jdumpsList xs).length + 1 := by
  intro xs
  induction xs with
  | nil => intro h; exact absurd rfl h
  | cons x t ih =>
    intro _ hN
    cases t with
    | nil =>
      have e1 : jfuelList [x] = 1 + jfuel x := by simp [jfuelList]
      have e2 : jdumpsList [x] = jdumps x := by simp [jdumpsList]
      rw [e1] at hN ⊢
      rw [e2]
      have hx := IH x (by omega)
      omega
    | cons y t2 =>
      have e1 : jfuelList (x :: y :: t2) = 1 + max (jfuel x) (jfuelList (y :: t2)) := by
        simp [jfuelList]
      have e2 : jdumpsList (x :: y :: t2) = jdumps x ++ (44 :: 32 :: jdumpsList (y :: t2)) := by
        simp [jdumpsList]
      have hm1 : jfuel x ≤ max (jfuel x) (jfuelList (y :: t2)) := Nat.le_max_left _ _
      have hm2 : jfuelList (y :: t2) ≤ max (jfuel x) (jfuelList (y :: t2)) := Nat.le_max_right _ _
      rw [e1] at hN ⊢
      rw [e2]
      have hx := IH x (by omega)
      have ht := ih (by simp) (by omega)
      have hM : max (jfuel x) (jfuelList (y :: t2)) ≤
          (jdumps x).length + (jdumpsList (y :: t2)).length + 1 :=
        Nat.max_le.mpr ⟨by omega, by omega⟩
      simp only [List.length_append, List.length_cons]
      omega

theorem jfuelKvs_le_aux (N : Nat) (IH : ∀ v, jfuel v ≤ N → jfuel v ≤ (jdumps v).length) :
    ∀ kvs : List (List Nat × JValue), kvs ≠ [] → jfuelKvs kvs ≤ N →
      jfuelKvs kvs ≤ (jdumpsKvs kvs).length + 1 := by
  intro kvs
  induction kvs with
  | nil => intro h; exact absurd rfl h
  | cons p t ih =>
    intro _ hN
    obtain ⟨k, v⟩ := p
    cases t with
    | nil =>
      have e1 : jfuelKvs [(k, v)] = 1 + jfuel v := by simp [jfuelKvs]
      have e2 : jdumpsKvs [(k, v)] = encStr k ++ (58 :: 32 :: jdumps v) := by simp [jdumpsKvs]
      rw [e1] at hN ⊢
      rw [e2]
      have hx := IH v (by omega)
      simp only [List.length_append, List.length_cons]
      omega
    | cons p2 t2 =>
      have e1 : jfuelKvs ((k, v) :: p2 :: t2) = 1 + max (jfuel v) (jfuelKvs (p2 :: t2)) := by
        simp [jfuelKvs]
      have e2 : jdumpsKvs ((k, v) :: p2 :: t2) =
          encStr k ++ (58 :: 32 :: jdumps v) ++ (44 :: 32 :: jdumpsKvs (p2 :: t2)) := by
        simp [jdumpsKvs]
      have hm1 : jfuel v ≤ max (jfuel v) (jfuelKvs (p2 :: t2)) := Nat.le_max_left _ _
      have hm2 : jfuelKvs (p2 :: t2) ≤ max (jfuel v) (jfuelKvs (p2 :: t2)) := Nat.le_max_right _ _
      rw [e1] at hN ⊢
      rw [e2]
      have hx := IH v (by omega)
      have ht := ih (by simp) (by omega)
      have hM : max (jfuel v) (jfuelKvs (p2 :: t2)) ≤
          (jdumps v).length + (jdumpsKvs (p2 :: t2)).length + 1 :=
        Nat.max_le.mpr ⟨by omega, by omega⟩
      simp only [List.length_append, List.length_cons]
      omega

theorem jfuel_le_len : ∀ (N : Nat) (v : JValue), jfuel v ≤ N →
    jfuel v ≤ (jdumps v).length := by
  intro N
  induction N with
  | zero =>
    intro v hN
    have := jfuel_pos v
    omega
  | succ n ihN =>
    intro v hN
    cases v with
    | jnull => simp [jfuel, jdumps, strLit]
    | jbool b => cases b <;> simp [jfuel, jdumps, strLit]
    | jint m =>
      obtain ⟨c, t, hct, _⟩ := intRepr_head m
      simp [jfuel, jdumps, hct]
    | jstr s => simp [jfuel, jdumps, encStr]
    | jarr xs =>
      cases xs with
      | nil => simp [jfuel, jfuelList, jdumps, jdumpsList]
      | cons x t =>
        have e0 : jfuel (.jarr (x :: t)) = 1 + jfuelList (x :: t) := by simp [jfuel]
        have e1 : jdumps (.jarr (x :: t)) = 91 :: (jdumpsList (x :: t) ++ [93]) := by
          simp [jdumps]
        rw [e0] at hN ⊢
        rw [e1]
        have := jfuelList_le_aux n (fun v h => ihN v h) (x :: t) (by simp) (by omega)
        simp only [List.length_cons, List.length_append]
        omega
    | jobj kvs =>
      cases kvs with
      | nil => simp [jfuel, jfuelKvs, jdumps, jdumpsKvs]
      | cons p t =>
        have e0 : jfuel (.jobj (p :: t)) = 1 + jfuelKvs (p :: t) := by simp [jfuel]
        have e1 : jdumps (.jobj (p :: t)) = 123 :: (jdumpsKvs (p :: t) ++ [125]) := by
          simp [jdumps]
        rw [e0] at hN ⊢
        rw [e1]
        have := jfuelKvs_le_aux n (fun v h => ihN v h) (p :: t) (by simp) (by omega)
        simp only [List.length_cons, List.length_append]
        omega

/-- The JSON round trip: `json.loads(json.dumps(v))` recovers `v` for
every well-formed model value. -/
theorem jloads_jdumps (v : JValue) (hwf : wfJson v = true) : jloads (jdumps v) = some v := by
  have hskip : skipWs (jdumps v) = jdumps v := by
    have := skipWs_jdumps v []
    simpa using this
  have hfuel : jfuel v ≤ (jdumps v).length + 1 := by
    have := jfuel_le_len (jfuel v) v (le_refl _)
    omega
  have hrt := parseValue_rt (jfuel v) v [] ((jdumps v).length + 1) (le_refl _) hwf
    (by simp [numStop]) hfuel
  rw [List.append_nil] at hrt
  rw [jloads, hskip, hrt]
  simp [skipWs]

/-! ## `json.dumps` output is ASCII (`ensure_ascii=True`) -/

theorem hexDig_lt128 : ∀ n < 16, hexDig n < 128 := by decide

theorem hex4_lt128 (n : Nat) : ∀ d ∈ hex4 n, d < 128 := by
  intro d hd
  simp only [hex4, List.mem_cons, List.mem_singleton, List.not_mem_nil] at hd
  rcases hd with rfl | rfl | rfl | rfl | h
  · exact hexDig_lt128 _ (by omega)
  · exact hexDig_lt128 _ (by omega)
  · exact hexDig_lt128 _ (by omega)
  · exact hexDig_lt128 _ (by omega)
  · cases h

theorem escChar_lt128 (c : Nat) : ∀ d ∈ escChar c, d < 128 := by
  intro d hd
  by_cases h1 : c = 34
  · subst h1; simp [escChar] at hd; omega
  by_cases h2 : c = 92
  · subst h2; simp [escChar] at hd; omega
  by_cases h3 : c = 8
  · subst h3; simp [escChar] at hd; omega
  by_cases h4 : c = 9
  · subst h4; simp [escChar] at hd; omega
  by_cases h5 : c = 10
  · subst h5; simp [escChar] at hd; omega
  by_cases h6 : c = 12
  · subst h6; simp [escChar] at hd; omega
  by_cases h7 : c = 13
  · subst h7; simp [escChar] at hd; omega
  by_cases h8 : c < 32
  · simp [escChar, h1, h2, h3, h4, h5, h6, h7, h8] at hd
    rcases hd with rfl | rfl | h
    · omega
    · omega
    · exact hex4_lt128 c d h
  by_cases h9 : c < 127
  · simp [escChar, h1, h2, h3, h4, h5, h6, h7, h8, h9] at hd
    omega
  by_cases h10 : c < 65536
  · simp [escChar, h1, h2, h3, h4, h5, h6, h7, h8, h9, h10] at hd
    rcases hd with rfl | rfl | h
    · omega
    · omega
    · exact hex4_lt128 c d h
  · simp [escChar, h1, h2, h3, h4, h5, h6, h7, h8, h9, h10] at hd
    rcases hd with rfl | rfl | h | rfl | rfl | h
    · omega
    · omega
    · exact hex4_lt128 _ d h
    · omega
    · omega
    · exact hex4_lt128 _ d h

theorem escStr_lt128 (s : List Nat) : ∀ d ∈ escStr s, d < 128 := by
  intro d hd
  simp only [escStr, List.mem_flatten, List.mem_map] at hd
  obtain ⟨l, ⟨c, _, rfl⟩, hdl⟩ := hd
  exact escChar_lt128 c d hdl

theorem natRepr_lt128 (n : Nat) : ∀ d ∈ natRepr n, d < 128 := by
  intro d hd
  have := natRepr_digits n d hd
  omega

theorem intRepr_lt128 (n : Int) : ∀ d ∈ intRepr n, d < 128 := by
  intro d hd
  cases n with
  | ofNat m => exact natRepr_lt128 m d (by simpa [intRepr] using hd)
  | negSucc m =>
    simp only [intRepr, List.mem_cons] at hd
    rcases hd with rfl | hd
    · omega
    · exact natRepr_lt128 _ d hd

theorem jdumpsList_lt128_aux (N : Nat) (IH : ∀ v, jfuel v ≤ N → ∀ d ∈ jdumps v, d < 128) :
    ∀ xs : List JValue, jfuelList xs ≤ N → ∀ d ∈ jdumpsList xs, d < 128 := by
  intro xs
  induction xs with
  | nil => intro _ d hd; simp [jdumpsList] at hd
  | cons x t ih =>
    intro hN d hd
    have e1 : jfuelList (x :: t) = 1 + max (jfuel x) (jfuelList t) := by simp [jfuelList]
    have hm1 : jfuel x ≤ max (jfuel x) (jfuelList t) := Nat.le_max_left _ _
    have hm2 : jfuelList t ≤ max (jfuel x) (jfuelList t) := Nat.le_max_right _ _
    rw [e1] at hN
    cases t with
    | nil =>
      rw [show jdumpsList [x] = jdumps x from by simp [jdumpsList]] at hd
      exact IH x (by omega) d hd
    | cons y t2 =>
      rw [show jdumpsList (x :: y :: t2) = jdumps x ++ (44 :: 32 :: jdumpsList (y :: t2)) from by
        simp [jdumpsList]] at hd
      simp only [List.mem_append, List.mem_cons] at hd
      rcases hd with hd | rfl | rfl | hd
      · exact IH x (by omega) d hd
      · omega
      · omega
      · exact ih (by omega) d hd

theorem jdumpsKvs_lt128_aux (N : Nat) (IH : ∀ v, jfuel v ≤ N → ∀ d ∈ jdumps v, d < 128) :
    ∀ kvs : List (List Nat × JValue), jfuelKvs kvs ≤ N → ∀ d ∈ jdumpsKvs kvs, d < 128 := by
  intro kvs
  induction kvs with
  | nil => intro _ d hd; simp [jdumpsKvs] at hd
  | cons p t ih =>
    intro hN d hd
    obtain ⟨k, v⟩ := p
    have e1 : jfuelKvs ((k, v) :: t) = 1 + max (jfuel v) (jfuelKvs t) := by simp [jfuelKvs]
    have hm1 : jfuel v ≤ max (jfuel v) (jfuelKvs t) := Nat.le_max_left _ _
    have hm2 : jfuelKvs t ≤ max (jfuel v) (jfuelKvs t) := Nat.le_max_right _ _
    rw [e1] at hN
    have hkey : ∀ d ∈ encStr k, d < 128 := by
      intro d hd
      simp only [encStr, List.cons_append, List.mem_cons, List.mem_append, List.mem_singleton,
        List.not_mem_nil, or_false, false_or] at hd
      have hh : d = 34 ∨ d ∈ escStr k := by tauto
      rcases hh with rfl | hh
      · omega
      · exact escStr_lt128 k d hh
    cases t with
    | nil =>
      rw [show jdumpsKvs [(k, v)] = encStr k ++ (58 :: 32 :: jdumps v) from by
        simp [jdumpsKvs]] at hd
      simp only [List.mem_append, List.mem_cons] at hd
      rcases hd with hd | rfl | rfl | hd
      · exact hkey d hd
      · omega
      · omega
      · exact IH v (by omega) d hd
    | cons p2 t2 =>
      rw [show jdumpsKvs ((k, v) :: p2 :: t2) =
          encStr k ++ (58 :: 32 :: jdumps v) ++ (44 :: 32 :: jdumpsKvs (p2 :: t2)) from by
        simp [jdumpsKvs]] at hd
      simp only [List.mem_append, List.mem_cons] at hd
      rcases hd with (hd | rfl | rfl | hd) | rfl | rfl | hd
      · exact hkey d hd
      · omega
      · omega
      · exact IH v (by omega) d hd
      · omega
      · omega
      · exact ih (by omega) d hd

theorem jdumps_lt128 : ∀ (N : Nat) (v : JValue), jfuel v ≤ N → ∀ d ∈ jdumps v, d < 128 := by
  intro N
  induction N with
  | zero =>
    intro v hN
    have := jfuel_pos v
    omega
  | succ n ihN =>
    intro v hN d hd
    cases v with
    | jnull =>
      rw [show jdumps .jnull = [110, 117, 108, 108] from by decide] at hd
      simp at hd
      omega
    | jbool b =>
      cases b
      · rw [show jdumps (.jbool false) = [102, 97, 108, 115, 101] from by decide] at hd
        simp at hd
        omega
      · rw [show jdumps (.jbool true) = [116, 114, 117, 101] from by decide] at hd
        simp at hd
        omega
    | jint m =>
      rw [show jdumps (.jint m) = intRepr m from by simp [jdumps]] at hd
      exact intRepr_lt128 m d hd
    | jstr s =>
      rw [show jdumps (.jstr s) = 34 :: (escStr s ++ [34]) from by simp [jdumps, encStr]] at hd
      simp only [List.mem_cons, List.mem_append, List.mem_singleton, List.not_mem_nil,
        or_false, false_or] at hd
      have hh : d = 34 ∨ d ∈ escStr s := by tauto
      rcases hh with rfl | hh
      · omega
      · exact escStr_lt128 s d hh
    | jarr xs =>
      rw [show jdumps (.jarr xs) = 91 :: (jdumpsList xs ++ [93]) from by simp [jdumps]] at hd
      simp only [jfuel] at hN
      simp only [List.mem_cons, List.mem_append, List.mem_singleton, List.not_mem_nil,
        or_false, false_or] at hd
      have hh : d = 91 ∨ d = 93 ∨ d ∈ jdumpsList xs := by tauto
      rcases hh with rfl | rfl | hh
      · omega
      · omega
      · exact jdumpsList_lt128_aux n ihN xs (by omega) d hh
    | jobj kvs =>
      rw [show jdumps (.jobj kvs) = 123 :: (jdumpsKvs kvs ++ [125]) from by simp [jdumps]] at hd
      simp only [jfuel] at hN
      simp only [List.mem_cons, List.mem_append, List.mem_singleton, List.not_mem_nil,
        or_false, false_or] at hd
      have hh : d = 123 ∨ d = 125 ∨ d ∈ jdumpsKvs kvs := by tauto
      rcases hh with rfl | rfl | hh
      · omega
      · omega
      · exact jdumpsKvs_lt128_aux n ihN kvs (by omega) d hh

theorem jdumps_ascii (v : JValue) : ∀ d ∈ jdumps v, d < 128 :=
  jdumps_lt128 (jfuel v) v (le_refl _)

/-! ## Frame-level lemmas -/

theorem mkFrame_append (o c k m st : Nat) (p : List Nat) :
    mkFrame o c k m st p = [240, 125, o, c, k, m, st] ++ (p ++ [247]) := by
  simp [mkFrame, SYSEX_START, SYSEX_END, MANUFACTURER_ID]

theorem mkFrame_cons (o c k m st : Nat) (p : List Nat) :
    mkFrame o c k m st p = 240 :: 125 :: o :: c :: k :: m :: st :: (p ++ [247]) := by
  simp [mkFrame, SYSEX_START, SYSEX_END, MANUFACTURER_ID]

theorem consFrame_getLast (o c k m st : Nat) (p : List Nat) :
    ((240 : Nat) :: 125 :: o :: c :: k :: m :: st :: (p ++ [247])).getLast? = some 247 := by
  rw [show (240 : Nat) :: 125 :: o :: c :: k :: m :: st :: (p ++ [247]) =
      ([240, 125, o, c, k, m, st] ++ p) ++ [247] from by simp]
  exact List.getLast?_concat _

theorem mkFrame_getLast (o c k m st : Nat) (p : List Nat) :
    (mkFrame o c k m st p).getLast? = some 247 := by
  rw [mkFrame_cons]
  exact consFrame_getLast o c k m st p

theorem mkFrame_payload (o c k m st : Nat) (p : List Nat) :
    ((mkFrame o c k m st p).drop 7).dropLast = p := by
  rw [mkFrame_cons]
  have hdrop : ((240 : Nat) :: 125 :: o :: c :: k :: m :: st :: (p ++ [247])).drop 7 =
      p ++ [247] := by simp
  rw [hdrop]
  exact List.dropLast_concat

theorem mkFrame_length (o c k m st : Nat) (p : List Nat) :
    (mkFrame o c k m st p).length = 8 + p.length := by
  rw [mkFrame_cons]
  simp
  omega

theorem b64encode_ne_nil (bs : List Nat) (h : bs ≠ []) : b64encode bs ≠ [] := by
  match bs with
  | [] => exact absurd rfl h
  | [a] => simp [b64encode]
  | [a, b] => simp [b64encode]
  | a :: b :: c :: rest => simp [b64encode]

theorem jdumps_ne_nil (v : JValue) : jdumps v ≠ [] := by
  obtain ⟨c, t, hct, _⟩ := jdumps_cons v
  simp [hct]

/-- The base64 payload built from a serialized value: nonempty, ASCII,
and decodes back to the serialized bytes. -/
theorem payload_facts (v : JValue) :
    let payload := b64encode (utf8Encode (jdumps v))
    payload ≠ [] ∧ (∀ c ∈ payload, c < 128) ∧ b64decode payload = some (jdumps v) ∧
      utf8Encode (jdumps v) = jdumps v := by
  have hascii := jdumps_ascii v
  have henc : utf8Encode (jdumps v) = jdumps v := utf8Encode_ascii _ hascii
  refine ⟨?_, ?_, ?_, henc⟩
  · rw [henc]
    exact b64encode_ne_nil _ (jdumps_ne_nil v)
  · exact b64encode_lt128 _
  · rw [henc, b64decode_encode _ (fun b hb => by have := hascii b hb; omega)]

theorem maskCid_of_le (cid : Nat) (h : cid ≤ 127) : maskCid (cid : Int) = cid := by
  simp only [maskCid]
  omega

/-- Parsing a well-formed command frame recovers the command. -/
theorem parse_sysex_frame (cid : Nat) (body : JValue)
    (hwf : wfJson body = true) (kvs : List (List Nat × JValue)) (hobj : body = .jobj kvs)
    (hact : (kvs.map Prod.fst).contains (strLit "action") = true) :
    parse_sysex (mkFrame 0 cid 0 1 0 (b64encode (utf8Encode (jdumps body)))) = .ok cid body := by
  obtain ⟨hne, hascii, hdec, henc⟩ := payload_facts body
  rw [mkFrame_cons]
  rw [parse_sysex]
  rw [if_neg (by simp)]
  rw [if_neg (by simp [SYSEX_START])]
  rw [if_neg (by rw [consFrame_getLast]; simp [SYSEX_END])]
  rw [if_neg (by simp [MANUFACTURER_ID])]
  simp only [List.getD_cons_succ, List.getD_cons_zero]
  rw [if_neg (by simp [ORIGIN_CLIENT]), if_neg (by simp [MSG_TYPE_COMMAND]), if_neg (by simp)]
  have hdrop : ((240 : Nat) :: 125 :: 0 :: cid :: 0 :: 1 :: 0 ::
      (b64encode (utf8Encode (jdumps body)) ++ [247])).drop 7 =
      b64encode (utf8Encode (jdumps body)) ++ [247] := by simp
  rw [hdrop, List.dropLast_concat]
  rw [if_neg (by simpa using hne)]
  have hall : ((b64encode (utf8Encode (jdumps body))).all fun b => decide (b < 128)) = true := by
    rw [List.all_eq_true]
    intro b hb
    simpa using hascii b hb
  have hdecA : asciiDecode (b64encode (utf8Encode (jdumps body))) =
      some (b64encode (utf8Encode (jdumps body))) := by
    simp [asciiDecode, hall]
  rw [hdecA]
  simp only [hdec, utf8Decode_ascii _ (jdumps_ascii body), jloads_jdumps body hwf]
  rw [hobj]
  have hactm : ∃ x, (strLit "action", x) ∈ kvs := by simpa using hact
  simp [hactm]

/-- Claim C1 helper: the command object built by `build_sysex_command`. -/
theorem parse_build_sysex_command (cid : Nat) (h1 : 1 ≤ cid) (h2 : cid ≤ 127)
    (action : List Nat) (params : List (List Nat × JValue))
    (hva : validStr action = true) (hwp : wfKvs params = true) :
    parse_sysex (build_sysex_command (cid : Int) action params) =
      .ok cid (.jobj [(strLit "action", .jstr action), (strLit "params", .jobj params)]) := by
  have hwf : wfJson (JValue.jobj [(strLit "action", .jstr action),
      (strLit "params", .jobj params)]) = true := by
    simp [wfJson, wfKvs, hva, hwp]
    refine ⟨⟨by decide, by decide⟩, by decide⟩
  have hact2 : (([(strLit "action", JValue.jstr action),
      (strLit "params", JValue.jobj params)].map Prod.fst).contains (strLit "action")) = true := by
    simp
  have := parse_sysex_frame cid
    (.jobj [(strLit "action", .jstr action), (strLit "params", .jobj params)]) hwf
    [(strLit "action", .jstr action), (strLit "params", .jobj params)] rfl hact2
  rw [build_sysex_command, maskCid_of_le cid h2]
  exact this

theorem mkFrame_byte3 (o c k m st : Nat) (p : List Nat) :
    (mkFrame o c k m st p).getD 3 0 = c := by
  rw [mkFrame_cons]
  rfl

theorem mkFrame_byte4 (o c k m st : Nat) (p : List Nat) :
    (mkFrame o c k m st p).getD 4 0 = k := by
  rw [mkFrame_cons]
  rfl

theorem chunkFramesF_cons_le (cid status f : Nat) (c : Nat) (t : List Nat)
    (hle : (c :: t).length ≤ MAX_PAYLOAD_BYTES) :
    chunkFramesF cid status (f + 1) (c :: t) =
      [mkFrame ORIGIN_SERVER cid 0 MSG_TYPE_RESPONSE status (c :: t)] := by
  simp only [chunkFramesF]
  rw [if_pos hle]

theorem chunkFramesF_cons_gt (cid status f : Nat) (c : Nat) (t : List Nat)
    (hgt : ¬ (c :: t).length ≤ MAX_PAYLOAD_BYTES) :
    chunkFramesF cid status (f + 1) (c :: t) =
      mkFrame ORIGIN_SERVER cid 1 MSG_TYPE_RESPONSE status ((c :: t).take MAX_PAYLOAD_BYTES) ::
        chunkFramesF cid status f ((c :: t).drop MAX_PAYLOAD_BYTES) := by
  simp only [chunkFramesF]
  rw [if_neg hgt]

theorem chunkFramesF_spec (cid status : Nat) :
    ∀ (fuel : Nat) (s : List Nat), s ≠ [] → s.length ≤ fuel →
      (chunkFramesF cid status fuel s).length = (s.length + 1799) / 1800 ∧
      ((chunkFramesF cid status fuel s).map (fun f => (f.drop 7).dropLast)).flatten = s ∧
      (∀ i, i + 1 < (chunkFramesF cid status fuel s).length →
        ((chunkFramesF cid status fuel s).getD i []).getD 4 0 = 1) ∧
      ((chunkFramesF cid status fuel s).getD
        ((chunkFramesF cid status fuel s).length - 1) []).getD 4 0 = 0 := by
  intro fuel
  induction fuel with
  | zero =>
    intro s hne hlen
    exact absurd (List.length_eq_zero.mp (by omega)) hne
  | succ f ih =>
    intro s hne hlen
    obtain ⟨c, t, rfl⟩ : ∃ c t, s = c :: t := by
      cases s with
      | nil => exact absurd rfl hne
      | cons c t => exact ⟨c, t, rfl⟩
    by_cases hle : (c :: t).length ≤ MAX_PAYLOAD_BYTES
    · rw [chunkFramesF_cons_le cid status f c t hle]
      simp only [MAX_PAYLOAD_BYTES, List.length_cons] at hle
      refine ⟨?_, by simp [mkFrame_payload], ?_, ?_⟩
      · simp only [List.length_singleton, List.length_cons, List.length_nil]
        omega
      · intro i hi
        simp at hi
      · rw [show ([mkFrame ORIGIN_SERVER cid 0 MSG_TYPE_RESPONSE status (c :: t)]).length - 1 = 0
          from by simp]
        rw [List.getD_cons_zero, mkFrame_byte4]
    · rw [chunkFramesF_cons_gt cid status f c t hle]
      have hgt2 : 1800 < t.length + 1 := by
        simp only [MAX_PAYLOAD_BYTES, List.length_cons] at hle
        omega
      have hdne : (c :: t).drop MAX_PAYLOAD_BYTES ≠ [] := by
        apply List.length_pos.mp
        rw [List.length_drop]
        simp only [List.length_cons, MAX_PAYLOAD_BYTES]
        omega
      have hdlen : ((c :: t).drop MAX_PAYLOAD_BYTES).length ≤ f := by
        rw [List.length_drop]
        simp only [List.length_cons, MAX_PAYLOAD_BYTES] at hlen ⊢
        omega
      obtain ⟨ihlen, ihflat, ihcont, ihlast⟩ := ih ((c :: t).drop MAX_PAYLOAD_BYTES) hdne hdlen
      have hrecne : chunkFramesF cid status f ((c :: t).drop MAX_PAYLOAD_BYTES) ≠ [] := by
        intro hcon
        rw [hcon] at ihlen
        rw [List.length_drop] at ihlen
        simp only [List.length_nil, List.length_cons, MAX_PAYLOAD_BYTES] at ihlen
        omega
      refine ⟨?_, ?_, ?_, ?_⟩
      · rw [List.length_cons, ihlen, List.length_drop]
        simp only [List.length_cons, MAX_PAYLOAD_BYTES]
        omega
      · simp only [List.map_cons, List.flatten_cons, mkFrame_payload, ihflat]
        exact List.take_append_drop _ _
      · intro i hi
        match i with
        | 0 => rw [List.getD_cons_zero, mkFrame_byte4]
        | j + 1 =>
          simp only [List.length_cons] at hi
          simp only [List.getD_cons_succ]
          exact ihcont j (by omega)
      · have hL : 1 ≤ (chunkFramesF cid status f ((c :: t).drop MAX_PAYLOAD_BYTES)).length := by
          cases h : chunkFramesF cid status f ((c :: t).drop MAX_PAYLOAD_BYTES) with
          | nil => exact absurd h hrecne
          | cons a l => simp
        simp only [List.length_cons]
        rw [show (chunkFramesF cid status f ((c :: t).drop MAX_PAYLOAD_BYTES)).length + 1 - 1 =
          ((chunkFramesF cid status f ((c :: t).drop MAX_PAYLOAD_BYTES)).length - 1) + 1 from by
          omega]
        simp only [List.getD_cons_succ]
        exact ihlast

theorem chunkFramesF_mem_byte3 (cid status : Nat) :
    ∀ (fuel : Nat) (s : List Nat), ∀ f ∈ chunkFramesF cid status fuel s, f.getD 3 0 = cid := by
  intro fuel
  induction fuel with
  | zero =>
    intro s f hf
    cases s <;> simp [chunkFramesF] at hf
  | succ fl ih =>
    intro s f hf
    cases s with
    | nil => simp [chunkFramesF] at hf
    | cons c t =>
      by_cases hle : (c :: t).length ≤ MAX_PAYLOAD_BYTES
      · rw [chunkFramesF_cons_le cid status fl c t hle] at hf
        simp only [List.mem_singleton] at hf
        rw [hf, mkFrame_byte3]
      · rw [chunkFramesF_cons_gt cid status fl c t hle] at hf
        simp only [List.mem_cons] at hf
        rcases hf with rfl | hf
        · exact mkFrame_byte3 _ _ _ _ _ _
        · exact ih _ f hf

/-! # Claims -/

/-- C1: for every clientId in 1..127, action string and params mapping,
`parse_sysex` applied to `build_sysex_command(clientId, action, params)`
returns exactly `{client_id: clientId, command: {action: action, params:
params}}` and no error. -/
theorem claim_C1 (cid : Nat) (h1 : 1 ≤ cid) (h2 : cid ≤ 127) (action : List Nat)
    (params : List (List Nat × JValue)) (hva : validStr action = true)
    (hwp : wfKvs params = true) :
    parse_sysex (build_sysex_command (cid : Int) action params) =
      .ok cid (.jobj [(strLit "action", .jstr action), (strLit "params", .jobj params)]) :=
  parse_build_sysex_command cid h1 h2 action params hva hwp

theorem claim_C1_witness :
    (1 ≤ 5 ∧ 5 ≤ 127 ∧ validStr (strLit "transport.start") = true ∧
      wfKvs [(strLit "channel", JValue.jint 3)] = true) ∧
    parse_sysex (build_sysex_command (5 : Int) (strLit "transport.start")
        [(strLit "channel", JValue.jint 3)]) =
      .ok 5 (.jobj [(strLit "action", .jstr (strLit "transport.start")),
        (strLit "params", .jobj [(strLit "channel", JValue.jint 3)])]) :=
  ⟨⟨by decide, by decide, by decide, by decide⟩,
    claim_C1 5 (by decide) (by decide) (strLit "transport.start")
      [(strLit "channel", JValue.jint 3)] (by decide) (by decide)⟩

/-- C2: `parse_sysex` is total on arbitrary byte sequences and always
returns a result carrying a `client_id` together with either a command
(success) or an error message (rejection). -/
theorem claim_C2 (data : List Nat) :
    (∃ cid cmd, parse_sysex data = .ok cid cmd) ∨
    (∃ cid msg, parse_sysex data = .err cid msg) := by
  cases h : parse_sysex data with
  | ok cid cmd => exact Or.inl ⟨cid, cmd, rfl⟩
  | err cid msg => exact Or.inr ⟨cid, msg, rfl⟩

/-- C3: for a response whose base64 text spans `K ≥ 1` chunks of at most
1800 characters, `build_chunked_sysex_response` produces exactly `K`
frames; concatenating the payload slices (bytes 7 through second-to-last)
and base64-decoding yields the original UTF-8 JSON bytes; every frame but
the last has continuation byte 1, the last has 0. -/
theorem claim_C3 (cid : Int) (resp : JValue) (ok : Bool) (K : Nat)
    (hK : K = ((b64encode (utf8Encode (jdumps resp))).length + (MAX_PAYLOAD_BYTES - 1)) /
      MAX_PAYLOAD_BYTES)
    (hK1 : 1 ≤ K) :
    (build_chunked_sysex_response cid resp ok).length = K ∧
    b64decode (((build_chunked_sysex_response cid resp ok).map
      (fun f => (f.drop 7).dropLast)).flatten) = some (utf8Encode (jdumps resp)) ∧
    (∀ i, i + 1 < K → ((build_chunked_sysex_response cid resp ok).getD i []).getD 4 0 = 1) ∧
    ((build_chunked_sysex_response cid resp ok).getD (K - 1) []).getD 4 0 = 0 := by
  obtain ⟨hne, hascii, hdec, henc⟩ := payload_facts resp
  simp only [MAX_PAYLOAD_BYTES] at hK
  obtain ⟨hlen, hflat, hcont, hlast⟩ := chunkFramesF_spec (maskCid cid)
    (if ok = true then STATUS_OK else STATUS_ERROR)
    (b64encode (utf8Encode (jdumps resp))).length (b64encode (utf8Encode (jdumps resp)))
    hne (le_refl _)
  have hKeq : K = (chunkFramesF (maskCid cid) (if ok = true then STATUS_OK else STATUS_ERROR)
      (b64encode (utf8Encode (jdumps resp))).length
      (b64encode (utf8Encode (jdumps resp)))).length := by
    rw [hlen]
    omega
  have hbc : build_chunked_sysex_response cid resp ok =
      chunkFramesF (maskCid cid) (if ok = true then STATUS_OK else STATUS_ERROR)
        (b64encode (utf8Encode (jdumps resp))).length
        (b64encode (utf8Encode (jdumps resp))) := by
    simp [build_chunked_sysex_response]
  refine ⟨by rw [hbc, ← hKeq], ?_, ?_, ?_⟩
  · rw [hbc, hflat, hdec, henc]
  · intro i hi
    rw [hbc]
    exact hcont i (by omega)
  · rw [hbc, hKeq]
    exact hlast

theorem claim_C3_witness :
    (1 = ((b64encode (utf8Encode (jdumps (JValue.jobj [(strLit "ok", JValue.jbool true)])))).length +
      (MAX_PAYLOAD_BYTES - 1)) / MAX_PAYLOAD_BYTES ∧ 1 ≤ 1) ∧
    (build_chunked_sysex_response 3 (JValue.jobj [(strLit "ok", JValue.jbool true)]) true).length = 1 ∧
    b64decode (((build_chunked_sysex_response 3 (JValue.jobj [(strLit "ok", JValue.jbool true)])
        true).map (fun f => (f.drop 7).dropLast)).flatten) =
      some (utf8Encode (jdumps (JValue.jobj [(strLit "ok", JValue.jbool true)]))) ∧
    (∀ i, i + 1 < 1 → ((build_chunked_sysex_response 3
      (JValue.jobj [(strLit "ok", JValue.jbool true)]) true).getD i []).getD 4 0 = 1) ∧
    ((build_chunked_sysex_response 3
      (JValue.jobj [(strLit "ok", JValue.jbool true)]) true).getD 0 []).getD 4 0 = 0 :=
  ⟨⟨by decide, by decide⟩,
    claim_C3 3 (JValue.jobj [(strLit "ok", JValue.jbool true)]) true 1 (by decide) (by decide)⟩

/-- C4: when the base64 text fits in one chunk (≤ 1800 characters),
`build_chunked_sysex_response` is the one-element list holding exactly
the `build_sysex_response` frame. -/
theorem claim_C4 (cid : Int) (resp : JValue) (ok : Bool)
    (hle : (b64encode (utf8Encode (jdumps resp))).length ≤ MAX_PAYLOAD_BYTES) :
    build_chunked_sysex_response cid resp ok = [build_sysex_response cid resp ok] := by
  obtain ⟨hne, _, _, _⟩ := payload_facts resp
  obtain ⟨c, t, hct⟩ : ∃ c t, b64encode (utf8Encode (jdumps resp)) = c :: t := by
    match hm : b64encode (utf8Encode (jdumps resp)) with
    | [] => exact absurd hm hne
    | c :: t => exact ⟨c, t, rfl⟩
  rw [build_chunked_sysex_response, build_sysex_response]
  simp only [hct] at hle ⊢
  rw [show (c :: t).length = t.length + 1 from by simp]
  rw [chunkFramesF_cons_le _ _ _ _ _ hle]

theorem claim_C4_witness :
    (b64encode (utf8Encode (jdumps (JValue.jobj [])))).length ≤ MAX_PAYLOAD_BYTES ∧
    build_chunked_sysex_response 9 (JValue.jobj []) false =
      [build_sysex_response 9 (JValue.jobj []) false] :=
  ⟨by decide, claim_C4 9 (JValue.jobj []) false (by decide)⟩

/-- C5 (counterexample): the error text is `"No action specified in
command"`, not `"No action specified"` as the claim states. -/
theorem claim_C5_counterexample :
    execute_command [] (.ok 1 (.jobj [])) ≠
      .jobj [(strLit "success", .jbool false),
        (strLit "error", .jstr (strLit "No action specified"))] := by
  decide

/-- C5 (amended): for every parsed command whose command mapping has a
missing or falsy action value, `execute_command` returns exactly
`{success: false, error: "No action specified in command"}`. -/
theorem claim_C5 (registry : Registry) (cid : Nat) (kvs : List (List Nat × JValue))
    (hfalsy : truthy (objGetD kvs (strLit "action") .jnull) = false) :
    execute_command registry (.ok cid (.jobj kvs)) =
      .jobj [(strLit "success", .jbool false),
        (strLit "error", .jstr (strLit "No action specified in command"))] := by
  simp [execute_command, hfalsy, errorEnvelope]

theorem claim_C5_witness :
    truthy (objGetD [] (strLit "action") .jnull) = false ∧
    execute_command [] (.ok 1 (.jobj [])) =
      .jobj [(strLit "success", .jbool false),
        (strLit "error", .jstr (strLit "No action specified in command"))] :=
  ⟨by decide, claim_C5 [] 1 [] (by decide)⟩

/-- C6 (counterexample): on a marker-carrying SysEx event whose payload
fails to parse (here: wrong message type), `OnSysEx` writes out no frame
in the same callback — the error response is appended to the response
queue for a later `OnIdle` drain tick instead. -/
theorem claim_C6_counterexample :
    parse_sysex [240, 125, 0, 5, 0, 2, 0, 65, 247] =
      .err 5 (strLit "Expected msg_type=command (0x01), got " ++ pyHex 2) ∧
    (OnSysEx [] ⟨[], true⟩ [240, 125, 0, 5, 0, 2, 0, 65, 247]).2 = [] ∧
    (OnSysEx [] ⟨[], true⟩ [240, 125, 0, 5, 0, 2, 0, 65, 247]).1.response_queue ≠ [] := by
  refine ⟨by decide, by decide, by decide⟩

/-- C6 (amended): for every inbound SysEx event carrying this protocol's
markers whose payload fails to parse, `OnSysEx` appends a best-effort
error record to the response queue (to be framed and sent by a later
`OnIdle` drain tick) and writes out no frame within the same callback
invocation. -/
theorem claim_C6 (registry : Registry) (st : BridgeState) (data : List Nat)
    (cid : Nat) (msg : List Nat)
    (hpl : st.protocol_loaded = true) (hlen : ¬ data.length < 3)
    (h0 : data.getD 0 0 = 240) (h1 : data.getD 1 0 = 125)
    (hp : parse_sysex data = .err cid msg) :
    OnSysEx registry st data =
      ({ st with
          response_queue :=
            st.response_queue ++ [⟨(cid : Int), errorEnvelope msg, false⟩] }, []) := by
  have hc : ¬(data.getD 0 0 ≠ 240 ∨ data.getD 1 0 ≠ 125) := by
    rw [h0, h1]
    simp
  unfold OnSysEx
  rw [hpl, if_neg (by simp), if_neg hlen, if_neg hc, hp]

theorem claim_C6_witness :
    ((⟨[], true⟩ : BridgeState).protocol_loaded = true ∧
      ¬ ([240, 125, 0, 5, 0, 2, 0, 65, 247] : List Nat).length < 3 ∧
      ([240, 125, 0, 5, 0, 2, 0, 65, 247] : List Nat).getD 0 0 = 240 ∧
      ([240, 125, 0, 5, 0, 2, 0, 65, 247] : List Nat).getD 1 0 = 125 ∧
      parse_sysex [240, 125, 0, 5, 0, 2, 0, 65, 247] =
        .err 5 (strLit "Expected msg_type=command (0x01), got " ++ pyHex 2)) ∧
    OnSysEx [] ⟨[], true⟩ [240, 125, 0, 5, 0, 2, 0, 65, 247] =
      ({ (⟨[], true⟩ : BridgeState) with
          response_queue := ([] : List QueueRec) ++
            [⟨(5 : Int),
              errorEnvelope (strLit "Expected msg_type=command (0x01), got " ++ pyHex 2),
              false⟩] }, []) :=
  ⟨⟨rfl, by decide, rfl, rfl, by decide⟩,
    claim_C6 [] ⟨[], true⟩ [240, 125, 0, 5, 0, 2, 0, 65, 247] 5
      (strLit "Expected msg_type=command (0x01), got " ++ pyHex 2)
      rfl (by decide) rfl rfl (by decide)⟩

/-- C7: for every registered handler and params value: a handler result
that is a mapping lacking a `success` key comes back with `success: true`
appended; a mapping that already has `success` comes back unchanged; a
non-mapping result `v` comes back wrapped as
`{success: true, result: v}`. -/
theorem claim_C7 (registry : Registry) (aname : List Nat) (handler : JValue → JValue)
    (p : JValue) (cid : Nat) (hne : aname ≠ [])
    (hlk : lookupHandler registry aname = some handler) :
    (∀ rkvs, handler p = .jobj rkvs →
      (rkvs.map Prod.fst).contains (strLit "success") = false →
      execute_command registry
        (.ok cid (.jobj [(strLit "action", .jstr aname), (strLit "params", p)])) =
        .jobj (rkvs ++ [(strLit "success", .jbool true)])) ∧
    (∀ rkvs, handler p = .jobj rkvs →
      (rkvs.map Prod.fst).contains (strLit "success") = true →
      execute_command registry
        (.ok cid (.jobj [(strLit "action", .jstr aname), (strLit "params", p)])) =
        .jobj rkvs) ∧
    (∀ v, handler p = v → (∀ rkvs, v ≠ .jobj rkvs) →
      execute_command registry
        (.ok cid (.jobj [(strLit "action", .jstr aname), (strLit "params", p)])) =
        .jobj [(strLit "success", .jbool true), (strLit "result", v)]) := by
  have hkne : strLit "action" ≠ strLit "params" := by decide
  have hact : objGetD [(strLit "action", JValue.jstr aname), (strLit "params", p)]
      (strLit "action") .jnull = .jstr aname := by
    simp [objGetD, objGet]
  have hpar : objGetD [(strLit "action", JValue.jstr aname), (strLit "params", p)]
      (strLit "params") (.jobj []) = p := by
    simp [objGetD, objGet, hkne]
  have htr : truthy (.jstr aname) = true := by
    cases aname with
    | nil => exact absurd rfl hne
    | cons a t => rfl
  refine ⟨?_, ?_, ?_⟩
  · intro rkvs hr hs
    simp [execute_command, hact, hpar, htr, hlk, hr]
    simpa using hs
  · intro rkvs hr hs
    simp [execute_command, hact, hpar, htr, hlk, hr]
    simpa using hs
  · intro v hr hv
    cases v with
    | jobj rkvs => exact absurd rfl (hv rkvs)
    | jnull => simp [execute_command, hact, hpar, htr, hlk, hr]
    | jbool b => simp [execute_command, hact, hpar, htr, hlk, hr]
    | jint n => simp [execute_command, hact, hpar, htr, hlk, hr]
    | jstr s => simp [execute_command, hact, hpar, htr, hlk, hr]
    | jarr xs => simp [execute_command, hact, hpar, htr, hlk, hr]

theorem claim_C7_witness :
    (strLit "a" ≠ ([] : List Nat) ∧
      lookupHandler [(strLit "a", fun _ => JValue.jobj [(strLit "foo", JValue.jint 1)])]
        (strLit "a") = some (fun _ => JValue.jobj [(strLit "foo", JValue.jint 1)]) ∧
      (fun (_ : JValue) => JValue.jobj [(strLit "foo", JValue.jint 1)]) (JValue.jobj []) =
        .jobj [(strLit "foo", JValue.jint 1)] ∧
      ([(strLit "foo", JValue.jint 1)].map Prod.fst).contains (strLit "success") = false) ∧
    execute_command [(strLit "a", fun _ => JValue.jobj [(strLit "foo", JValue.jint 1)])]
      (.ok 1 (.jobj [(strLit "action", .jstr (strLit "a")), (strLit "params", .jobj [])])) =
      .jobj [(strLit "foo", JValue.jint 1), (strLit "success", JValue.jbool true)] :=
  ⟨⟨by decide, rfl, rfl, by decide⟩,
    (claim_C7 [(strLit "a", fun _ => JValue.jobj [(strLit "foo", JValue.jint 1)])]
        (strLit "a") (fun _ => JValue.jobj [(strLit "foo", JValue.jint 1)])
        (JValue.jobj []) 1 (by decide) rfl).1
      [(strLit "foo", JValue.jint 1)] rfl (by decide)⟩

/-- C8: every frame produced by `build_sysex_response`,
`build_chunked_sysex_response` and `build_sysex_command` carries
`clientId & 0x7F` at byte offset 3; in particular `200 & 0x7F = 72`, so
`build_sysex_response` with clientId 200 has byte 3 equal to 72. -/
theorem claim_C8 (cid : Int) (resp : JValue) (ok : Bool) (action : List Nat)
    (params : List (List Nat × JValue)) :
    (build_sysex_response cid resp ok).getD 3 0 = maskCid cid ∧
    (∀ f ∈ build_chunked_sysex_response cid resp ok, f.getD 3 0 = maskCid cid) ∧
    (build_sysex_command cid action params).getD 3 0 = maskCid cid ∧
    maskCid 200 = 72 ∧
    (build_sysex_response 200 resp ok).getD 3 0 = 72 := by
  refine ⟨?_, ?_, ?_, by decide, ?_⟩
  · rw [build_sysex_response, mkFrame_byte3]
  · intro f hf
    rw [build_chunked_sysex_response] at hf
    exact chunkFramesF_mem_byte3 (maskCid cid) _ _ _ f hf
  · rw [build_sysex_command]
    rw [mkFrame_byte3]
  · rw [build_sysex_response, mkFrame_byte3]
    rfl

theorem claim_C8_witness :
    [240, 125, 1, 72, 0, 2, 0, 101, 51, 48, 61, 247] ∈
      build_chunked_sysex_response 200 (JValue.jobj []) true ∧
    ([240, 125, 1, 72, 0, 2, 0, 101, 51, 48, 61, 247] : List Nat).getD 3 0 = maskCid 200 :=
  ⟨by decide,
    (claim_C8 200 (JValue.jobj []) true (strLit "a") []).2.1
      [240, 125, 1, 72, 0, 2, 0, 101, 51, 48, 61, 247] (by decide)⟩

/-- C9: with the protocol loaded and `N > 1` responses queued, one
`OnIdle` invocation dequeues exactly the oldest record, leaves `N - 1`
queued, and sends it as the single non-chunked frame
`build_sysex_response` builds for it. -/
theorem claim_C9 (st : BridgeState) (N : Nat) (hN : 1 < N)
    (hlen : st.response_queue.length = N) (hl : st.protocol_loaded = true) :
    ∃ r rest, st.response_queue = r :: rest ∧
      OnIdle st = ({ st with response_queue := rest },
        [build_sysex_response r.client_id r.response r.success]) ∧
      rest.length = N - 1 := by
  obtain ⟨q, pl⟩ := st
  have hl2 : pl = true := hl
  subst hl2
  have hq : q.length = N := hlen
  cases q with
  | nil =>
    simp at hq
    omega
  | cons r rest =>
    refine ⟨r, rest, rfl, ?_, ?_⟩
    · simp [OnIdle]
    · simp at hq
      omega

theorem claim_C9_witness :
    (1 < 2 ∧
      (⟨[⟨1, JValue.jobj [], true⟩, ⟨2, JValue.jnull, false⟩], true⟩ :
        BridgeState).response_queue.length = 2 ∧
      (⟨[⟨1, JValue.jobj [], true⟩, ⟨2, JValue.jnull, false⟩], true⟩ :
        BridgeState).protocol_loaded = true) ∧
    ∃ r rest,
      (⟨[⟨1, JValue.jobj [], true⟩, ⟨2, JValue.jnull, false⟩], true⟩ :
        BridgeState).response_queue = r :: rest ∧
      OnIdle (⟨[⟨1, JValue.jobj [], true⟩, ⟨2, JValue.jnull, false⟩], true⟩ : BridgeState) =
        ({ (⟨[⟨1, JValue.jobj [], true⟩, ⟨2, JValue.jnull, false⟩], true⟩ : BridgeState) with
            response_queue := rest },
          [build_sysex_response r.client_id r.response r.success]) ∧
      rest.length = 2 - 1 :=
  ⟨⟨by decide, rfl, rfl⟩,
    claim_C9 ⟨[⟨1, JValue.jobj [], true⟩, ⟨2, JValue.jnull, false⟩], true⟩ 2
      (by decide) rfl rfl⟩

/-- C10: a `parse_sysex` rejection before the manufacturer-id check
passes (too short, wrong start or end marker, wrong manufacturer id)
reports `client_id = 0` even when byte 3 is present; every rejection at
or after the origin check reports `client_id` equal to byte 3 of the
input. -/
theorem claim_C10 (data : List Nat) :
    ((data.length < 8 ∨ data.getD 0 0 ≠ SYSEX_START ∨ data.getLast? ≠ some SYSEX_END ∨
        data.getD 1 0 ≠ MANUFACTURER_ID) →
      ∃ msg, parse_sysex data = .err 0 msg) ∧
    (data.length ≥ 8 → data.getD 0 0 = SYSEX_START → data.getLast? = some SYSEX_END →
      data.getD 1 0 = MANUFACTURER_ID →
      ∀ cid msg, parse_sysex data = .err cid msg → cid = data.getD 3 0) := by
  constructor
  · intro h
    by_cases h1 : data.length < 8
    · exact ⟨strLit "Message too short", by
        unfold parse_sysex
        rw [if_pos h1]⟩
    by_cases h2 : data.getD 0 0 ≠ SYSEX_START
    · exact ⟨strLit "Missing SysEx start byte (0xF0)", by
        unfold parse_sysex
        rw [if_neg h1, if_pos h2]⟩
    by_cases h3 : data.getLast? ≠ some SYSEX_END
    · exact ⟨strLit "Missing SysEx end byte (0xF7)", by
        unfold parse_sysex
        rw [if_neg h1, if_neg h2, if_pos h3]⟩
    by_cases h4 : data.getD 1 0 ≠ MANUFACTURER_ID
    · exact ⟨strLit "Wrong manufacturer ID: " ++ pyHex (data.getD 1 0), by
        unfold parse_sysex
        rw [if_neg h1, if_neg h2, if_neg h3, if_pos h4]⟩
    tauto
  · intro hlen h0 hlast h1 cid msg hp
    have hlt : ¬ data.length < 8 := by omega
    unfold parse_sysex at hp
    rw [if_neg hlt, if_neg (by rw [h0]; exact fun hh => hh rfl),
      if_neg (by rw [hlast]; exact fun hh => hh rfl),
      if_neg (by rw [h1]; exact fun hh => hh rfl)] at hp
    simp only [] at hp
    repeat' split at hp
    all_goals first
      | (injection hp with ha hb; exact ha.symm)
      | (cases hp)

theorem claim_C10_witness :
    (∃ msg, parse_sysex [99] = .err 0 msg) ∧
    (9 : Nat) = ([240, 125, 0, 9, 0, 1, 0, 247] : List Nat).getD 3 0 :=
  ⟨(claim_C10 [99]).1 (Or.inl (by decide)),
    (claim_C10 [240, 125, 0, 9, 0, 1, 0, 247]).2 (by decide) (by decide) (by decide)
      (by decide) 9 (strLit "Empty payload") (by decide)⟩

/-! # Evaluation checks -/

example : b64decode (b64encode [72, 105, 33]) = some [72, 105, 33] := by decide
example : b64decode (b64encode [72, 105]) = some [72, 105] := by decide
example : b64decode (b64encode [72]) = some [72] := by decide
example : utf8Decode (utf8Encode [72, 955, 66376, 97]) = some [72, 955, 66376, 97] := by decide
example : natRepr 1507 = strLit "1507" := by decide
example : intRepr (-42) = strLit "-42" := by decide
example : jdumps (.jobj [(strLit "action", .jstr (strLit "transport.start")), (strLit "params", .jobj [])]) =
    strLit "\x7b\"action\": \"transport.start\", \"params\": \x7b\x7d\x7d" := by decide
example : jdumps (.jarr [.jint 1, .jint (-2), .jnull, .jbool true]) = strLit "[1, -2, null, true]" := by decide
example : jdumps (.jstr [8364]) = strLit "\"\\u20ac\"" := by decide
example : jdumps (.jstr [66376]) = strLit "\"\\ud800\\udf48\"" := by decide
example : jloads (strLit "  \x7b\"a\": [1, -2, null], \"b\": \"x\\ud800\\udf48y\"\x7d ") =
    some (.jobj [(strLit "a", .jarr [.jint 1, .jint (-2), .jnull]),
                 (strLit "b", .jstr [120, 66376, 121])]) := by decide
example : jloads (strLit "05") = none := by decide
example : jloads (strLit "\x7b\"a\": 1, \"a\": 2\x7d") = some (.jobj [(strLit "a", .jint 2)]) := by decide
example : jloads (jdumps (.jobj [(strLit "action", .jstr (strLit "transport.start")), (strLit "params", .jobj [])])) =
    some (.jobj [(strLit "action", .jstr (strLit "transport.start")), (strLit "params", .jobj [])]) := by decide
example : parse_sysex (build_sysex_command 5 (strLit "system.ping") []) =
    .ok 5 (.jobj [(strLit "action", .jstr (strLit "system.ping")), (strLit "params", .jobj [])]) := by decide
example : parse_sysex [] = .err 0 (strLit "Message too short") := by decide
example : parse_sysex [240, 125, 0, 9, 0, 1, 0, 247] = .err 9 (strLit "Empty payload") := by decide
example : parse_sysex [240, 99, 0, 9, 0, 1, 0, 65, 247] =
    .err 0 (strLit "Wrong manufacturer ID: 0x63") := by decide
example : build_sysex_response 200 (.jobj []) true =
    [240, 125, 1, 72, 0, 2, 0, 101, 51, 48, 61, 247] := by decide
example :
    execute_command [(strLit "my.action", fun _ => .jobj [(strLit "foo", .jint 1)])]
      (.ok 1 (.jobj [(strLit "action", .jstr (strLit "my.action")), (strLit "params", .jobj [])])) =
    .jobj [(strLit "foo", .jint 1), (strLit "success", .jbool true)] := by decide
example :
    execute_command [] (.ok 1 (.jobj [])) =
    errorEnvelope (strLit "No action specified in command") := by decide
example :
    execute_command [] (.err 3 (strLit "Empty payload")) =
    errorEnvelope (strLit "Empty payload") := by decide
example :
    OnIdle ⟨[⟨1, .jobj [], true⟩, ⟨2, .jobj [], false⟩], true⟩ =
    (⟨[⟨2, .jobj [], false⟩], true⟩, [build_sysex_response 1 (.jobj []) true]) := by decide
example :
    (OnSysEx [] ⟨[], true⟩ [240, 125, 0, 9, 0, 2, 0, 65, 247]).2 = [] := by decide
